import Mathlib

/-!
# Verification of the FloodFill repository core (src/core/grid.js, src/utils/gridHelpers.js)

A shallow embedding of the grid data model, the flood-fill engine and the
organic territory generator, together with proofs of the specification's
claims about them.

Conventions used throughout:
* a JS `string[][]` grid is a `List (List String)`; `null`-able cells of the
  generator are `Option String` (`none` = `null`);
* JS numbers used as indices/dimensions are `ℤ` (callers pass integers);
  other JS numbers are elements of a linear ordered field with floor
  (instantiated at `ℝ` in the claim theorems, keeping definitions compilable);
* `undefined` results are `Option.none`;
* the JS `Set` of `"row,col"` strings is a `List (ℤ × ℤ)` in insertion order:
  `createPositionKey` is injective on integer pairs, and the code only ever
  adds keys that are not yet present, so list `++` models `Set.add` exactly.
-/

/-- A grid: row-major list of rows of hex-color strings (`string[][]`). -/
abbrev Grid := List (List String)

/-- JS array indexing `l[i]` at a (possibly negative) integer index;
`none` models `undefined`. -/
def listGetI {α : Type} (l : List α) (i : ℤ) : Option α :=
  if 0 ≤ i then l[i.toNat]? else none

/-- `isValidPosition(grid, row, col)` from src/core/grid.js: false on the
empty grid, otherwise a bounds check against `grid.length` and
`grid[0].length`. -/
def isValidPosition (grid : Grid) (row col : ℤ) : Bool :=
  if grid.length = 0 then false
  else
    decide (0 ≤ row ∧ row < (grid.length : ℤ) ∧ 0 ≤ col ∧ col < ((grid.headD []).length : ℤ))

/-- `getCellColor(grid, row, col)` from src/core/grid.js: the cell's color,
or `none` (JS `undefined`) when the position is invalid. -/
def getCellColor (grid : Grid) (row col : ℤ) : Option String :=
  if isValidPosition grid row col then (listGetI grid row).bind (fun r => listGetI r col)
  else none

/-- `setCellColor(grid, row, col, color)` from src/core/grid.js: immutable
single-cell update via nested index-aware maps; returns the grid unchanged
when the position is invalid. -/
def setCellColor (grid : Grid) (row col : ℤ) (color : String) : Grid :=
  if isValidPosition grid row col then
    grid.mapIdx (fun r gridRow =>
      if (r : ℤ) = row then
        gridRow.mapIdx (fun c cellColor => if (c : ℤ) = col then color else cellColor)
      else gridRow)
  else grid

/-- `cloneGrid(grid)` from src/core/grid.js: `grid.map(row => [...row])`,
a deep (row-independent) copy; in a value model this is the identity. -/
def cloneGrid (grid : Grid) : Grid := grid.map (fun row => row)

/-- `getGridDimensions(grid)` from src/core/grid.js. -/
def getGridDimensions (grid : Grid) : ℤ × ℤ :=
  (grid.length, if grid.length > 0 then ((grid.headD []).length : ℤ) else 0)

/-- The spec's Grid invariant: all rows have the length of the first row
(rectangularity).  The spec's data model admits only such grids. -/
def Rectangular (grid : Grid) : Prop :=
  ∀ row ∈ grid, row.length = (grid.headD []).length

instance : DecidablePred Rectangular := fun g => by
  unfold Rectangular; infer_instance

/-! ## Basic lemmas about the grid model -/

theorem cloneGrid_eq (g : Grid) : cloneGrid g = g := by
  simp [cloneGrid]

theorem listGetI_map {α β : Type} (f : α → β) (l : List α) (i : ℤ) :
    listGetI (l.map f) i = (listGetI l i).map f := by
  unfold listGetI
  split <;> simp

theorem getElem?_mapIdx {α β : Type} (l : List α) (f : ℕ → α → β) (i : ℕ) :
    (l.mapIdx f)[i]? = (l[i]?).map (f i) := by
  induction l generalizing f i with
  | nil => simp [List.mapIdx_nil]
  | cons a as ih =>
    rw [List.mapIdx_cons]
    cases i with
    | zero => simp
    | succ n => simp [ih (fun j x => f (j + 1) x) n]

theorem length_mapIdx' {α β : Type} (l : List α) (f : ℕ → α → β) :
    (l.mapIdx f).length = l.length := by
  rw [List.mapIdx_eq_ofFn]; simp

theorem listGetI_mapIdx {α β : Type} (l : List α) (f : ℕ → α → β) (i : ℤ) (hi : 0 ≤ i) :
    listGetI (l.mapIdx f) i = (listGetI l i).map (f i.toNat) := by
  unfold listGetI
  simp [hi, getElem?_mapIdx]

/-- The color at a position, as a function of a position pair. -/
def colorAt (g : Grid) (p : ℤ × ℤ) : Option String := getCellColor g p.1 p.2

/-- The row-length profile of a grid; two grids with the same profile have the
same shape. -/
def rowLengths (g : Grid) : List ℕ := g.map List.length

theorem headD_length_eq_rowLengths (g : Grid) :
    (g.headD []).length = (rowLengths g).headD 0 := by
  cases g <;> simp [rowLengths]

theorem isValidPosition_congr {g₁ g₂ : Grid} (h : rowLengths g₁ = rowLengths g₂)
    (row col : ℤ) : isValidPosition g₁ row col = isValidPosition g₂ row col := by
  have hlen : g₁.length = g₂.length := by
    have := congrArg List.length h
    simpa [rowLengths] using this
  unfold isValidPosition
  rw [hlen, headD_length_eq_rowLengths, headD_length_eq_rowLengths, h]

theorem rowLengths_mapIdx (g : Grid) (f : ℕ → List String → List String)
    (hf : ∀ i row, (f i row).length = row.length) :
    rowLengths (g.mapIdx f) = rowLengths g := by
  apply List.ext_getElem?
  intro n
  simp only [rowLengths, List.getElem?_map, getElem?_mapIdx]
  cases g[n]? <;> simp [hf]

theorem setCellColor_invalid {g : Grid} {row col : ℤ} (h : isValidPosition g row col = false)
    (x : String) : setCellColor g row col x = g := by
  simp [setCellColor, h]

theorem rowLengths_setCellColor (g : Grid) (row col : ℤ) (x : String) :
    rowLengths (setCellColor g row col x) = rowLengths g := by
  unfold setCellColor
  split
  · apply rowLengths_mapIdx
    intro i r
    split
    · exact length_mapIdx' r _
    · rfl
  · rfl

theorem isValidPosition_setCellColor (g : Grid) (row col : ℤ) (x : String) (r c : ℤ) :
    isValidPosition (setCellColor g row col x) r c = isValidPosition g r c :=
  isValidPosition_congr (rowLengths_setCellColor g row col x) r c

theorem getCellColor_none_of_invalid {g : Grid} {row col : ℤ}
    (h : ¬ isValidPosition g row col = true) : getCellColor g row col = none := by
  simp [getCellColor, h]

theorem isValidPosition_of_isSome {g : Grid} {row col : ℤ}
    (h : (getCellColor g row col).isSome) : isValidPosition g row col = true := by
  by_contra hc
  rw [getCellColor_none_of_invalid hc] at h
  simp at h

/-- On a rectangular grid every valid position holds an actual cell. -/
theorem exists_cell_of_valid {g : Grid} (hrect : Rectangular g) {row col : ℤ}
    (h : isValidPosition g row col = true) : ∃ cv, getCellColor g row col = some cv := by
  unfold isValidPosition at h
  split at h
  · simp at h
  · rename_i hne
    rw [decide_eq_true_iff] at h
    obtain ⟨h1, h2, h3, h4⟩ := h
    have hrowlt : row.toNat < g.length := by omega
    have hrow : listGetI g row = some (g[row.toNat]) := by
      unfold listGetI
      simp [h1, List.getElem?_eq_getElem hrowlt]
    have hmem : g[row.toNat] ∈ g := List.getElem_mem hrowlt
    have hlencol : col.toNat < (g[row.toNat]).length := by
      have := hrect _ hmem
      omega
    refine ⟨(g[row.toNat])[col.toNat], ?_⟩
    unfold getCellColor
    rw [if_pos]
    · rw [hrow]
      unfold listGetI
      simp [h3, List.getElem?_eq_getElem hlencol]
    · unfold isValidPosition
      simp only [hne, if_neg]
      exact decide_eq_true_iff.mpr ⟨h1, h2, h3, h4⟩

/-- Main pointwise description of `setCellColor` at a position that actually
holds a cell: the updated grid agrees with the original everywhere except the
written cell. -/
theorem getCellColor_setCellColor {g : Grid} {row col : ℤ} {cv : String}
    (hcell : getCellColor g row col = some cv) (x : String) (r c : ℤ) :
    getCellColor (setCellColor g row col x) r c =
      if row = r ∧ col = c then some x else getCellColor g r c := by
  have hvalid : isValidPosition g row col = true :=
    isValidPosition_of_isSome (by simp [hcell])
  have hvalid' : isValidPosition (setCellColor g row col x) r c = isValidPosition g r c :=
    isValidPosition_setCellColor g row col x r c
  by_cases hv : isValidPosition g r c = true
  case neg =>
    have h1 : getCellColor (setCellColor g row col x) r c = none := by
      apply getCellColor_none_of_invalid
      rw [hvalid']; exact hv
    have h2 : getCellColor g r c = none := getCellColor_none_of_invalid hv
    rw [h1, h2]
    split
    · rename_i heq
      exact absurd (heq.1 ▸ heq.2 ▸ hvalid) hv
    · rfl
  case pos =>
    have hbr : 0 ≤ r ∧ r < (g.length : ℤ) ∧ 0 ≤ c ∧ c < ((g.headD []).length : ℤ) := by
      unfold isValidPosition at hv
      split at hv
      · simp at hv
      · exact decide_eq_true_iff.mp hv
    have hrownn : 0 ≤ r := hbr.1
    have hcnn : 0 ≤ c := hbr.2.2.1
    have hrow' : ((r.toNat : ℕ) : ℤ) = r := Int.toNat_of_nonneg hrownn
    have hcol' : ((c.toNat : ℕ) : ℤ) = c := Int.toNat_of_nonneg hcnn
    have hset : getCellColor (setCellColor g row col x) r c
        = (listGetI (setCellColor g row col x) r).bind (fun rr => listGetI rr c) := by
      unfold getCellColor
      rw [hvalid', if_pos hv]
    have hgc : getCellColor g r c = (listGetI g r).bind (fun rr => listGetI rr c) := by
      unfold getCellColor
      rw [if_pos hv]
    rw [hset, hgc]
    unfold setCellColor
    rw [if_pos hvalid, listGetI_mapIdx _ _ _ hrownn]
    by_cases hr : row = r
    case neg =>
      have hne : ((r.toNat : ℤ)) ≠ row := by rw [hrow']; exact fun hh => hr hh.symm
      cases hg : listGetI g r with
      | none => simp [hr]
      | some rowv =>
        simp only [Option.map_some', if_neg hne, Option.some_bind]
        split
        · rename_i heq; exact absurd heq.1 hr
        · rfl
    case pos =>
      subst hr
      have hx : ∃ rowv, listGetI g row = some rowv := by
        unfold getCellColor at hcell
        rw [if_pos hvalid] at hcell
        cases hg : listGetI g row with
        | none => rw [hg] at hcell; simp at hcell
        | some rowv => exact ⟨rowv, rfl⟩
      obtain ⟨rowv, hg⟩ := hx
      have hcv : listGetI rowv col = some cv := by
        unfold getCellColor at hcell
        rw [if_pos hvalid, hg] at hcell
        simpa using hcell
      rw [hg]
      simp only [Option.map_some']
      rw [if_pos hrow']
      rw [Option.some_bind, Option.some_bind, listGetI_mapIdx _ _ _ hcnn]
      by_cases hc : col = c
      case pos =>
        subst hc
        rw [hcv]
        simp [hcol']
      case neg =>
        have hne : ((c.toNat : ℤ)) ≠ col := by rw [hcol']; exact fun hh => hc hh.symm
        cases hrc : listGetI rowv c with
        | none => simp [hc]
        | some cell =>
          simp only [Option.map_some', if_neg hne]
          split
          · rename_i heq; exact absurd heq.2 hc
          · rfl

/-! ## src/utils/gridHelpers.js -/

/-- `getNeighbors(totalRows, totalCols, row, col)` from src/utils/gridHelpers.js:
the in-bounds 4-neighbors (up, down, left, right) of a position. -/
def getNeighbors (totalRows totalCols row col : ℤ) : List (ℤ × ℤ) :=
  [(row - 1, col), (row + 1, col), (row, col - 1), (row, col + 1)].filter
    (fun p => decide (0 ≤ p.1 ∧ p.1 < totalRows ∧ 0 ≤ p.2 ∧ p.2 < totalCols))

/-- `determineFlipDirection(row, col, totalRows, totalCols)` from
src/utils/gridHelpers.js.  `Math.floor(totalRows / 2)` on an integer input is
integer division by the positive constant 2 rounding down, which is Lean's
`ℤ` division. -/
def determineFlipDirection (row col totalRows totalCols : ℤ) : String :=
  let gridCenterRow := totalRows / 2
  let gridCenterCol := totalCols / 2
  if row < gridCenterRow then "up"
  else if row > gridCenterRow then "down"
  else if col < gridCenterCol then "left"
  else if col > gridCenterCol then "right"
  else "center"

/-! ## Flood fill engine (the second core source file; `createPositionKey`'s
`"row,col"` strings are modelled by the pairs themselves — the key map is
injective on integer pairs). -/

/-- `shouldProcessCell(grid, row, col, originalColor)` : the cell's current
color strictly equals (`===`) the original color; `getCellColor` returning
`undefined` (`none`) compares equal only to `undefined`. -/
def shouldProcessCell (grid : Grid) (row col : ℤ) (originalColor : Option String) : Bool :=
  decide (getCellColor grid row col = originalColor)

/-- `processCellsAtLevel(grid, cells, targetColor)` : repaint every listed cell
via a `reduce` over `setCellColor`. -/
def processCellsAtLevel (grid : Grid) (cells : List (ℤ × ℤ)) (targetColor : String) : Grid :=
  cells.foldl (fun currentGrid p => setCellColor currentGrid p.1 p.2 targetColor) grid

/-- `getUnvisitedNeighbors(rows, cols, row, col, visited)`. -/
def getUnvisitedNeighbors (rows cols row col : ℤ) (visited : List (ℤ × ℤ)) : List (ℤ × ℤ) :=
  (getNeighbors rows cols row col).filter (fun p => decide (p ∉ visited))

/-- The `flatMap` over `cellsToProcess` in `floodFillRecursive`, with the
`visited.add` side effects made explicit: returns the concatenated next level
together with the grown visited set. -/
def collectNextLevel (rows cols : ℤ) (cells : List (ℤ × ℤ)) (visited : List (ℤ × ℤ)) :
    List (ℤ × ℤ) × List (ℤ × ℤ) :=
  match cells with
  | [] => ([], visited)
  | p :: rest =>
    let neighbors := getUnvisitedNeighbors rows cols p.1 p.2 visited
    let next := collectNextLevel rows cols rest (visited ++ neighbors)
    (neighbors ++ next.1, next.2)

theorem collectNextLevel_snd (rows cols : ℤ) (cells visited : List (ℤ × ℤ)) :
    (collectNextLevel rows cols cells visited).2
      = visited ++ (collectNextLevel rows cols cells visited).1 := by
  induction cells generalizing visited with
  | nil => simp [collectNextLevel]
  | cons p rest ih =>
    simp only [collectNextLevel]
    rw [ih]
    simp [List.append_assoc]

theorem mem_getNeighbors {totalRows totalCols row col : ℤ} {p : ℤ × ℤ} :
    p ∈ getNeighbors totalRows totalCols row col ↔
      (p = (row - 1, col) ∨ p = (row + 1, col) ∨ p = (row, col - 1) ∨ p = (row, col + 1)) ∧
      (0 ≤ p.1 ∧ p.1 < totalRows ∧ 0 ≤ p.2 ∧ p.2 < totalCols) := by
  simp [getNeighbors, List.mem_filter]

theorem collectNextLevel_fst_mem (rows cols : ℤ) (cells : List (ℤ × ℤ)) :
    ∀ visited p, p ∈ (collectNextLevel rows cols cells visited).1 →
      (0 ≤ p.1 ∧ p.1 < rows ∧ 0 ≤ p.2 ∧ p.2 < cols) ∧ p ∉ visited := by
  induction cells with
  | nil => intro visited p h; simp [collectNextLevel] at h
  | cons q rest ih =>
    intro visited p h
    simp only [collectNextLevel, List.mem_append] at h
    rcases h with h | h
    · have hm := h
      unfold getUnvisitedNeighbors at hm
      rw [List.mem_filter] at hm
      obtain ⟨hn, hnv⟩ := hm
      rw [mem_getNeighbors] at hn
      exact ⟨hn.2, by simpa using hnv⟩
    · obtain ⟨hb, hnv⟩ := ih _ p h
      refine ⟨hb, fun hv => hnv ?_⟩
      exact List.mem_append.mpr (Or.inl hv)

theorem getNeighbors_nodup (totalRows totalCols row col : ℤ) :
    (getNeighbors totalRows totalCols row col).Nodup := by
  apply List.Nodup.filter
  simp [Prod.ext_iff]
  omega

theorem collectNextLevel_fst_nodup (rows cols : ℤ) (cells : List (ℤ × ℤ)) :
    ∀ visited, (collectNextLevel rows cols cells visited).1.Nodup := by
  induction cells with
  | nil => intro visited; simp [collectNextLevel]
  | cons q rest ih =>
    intro visited
    simp only [collectNextLevel]
    apply List.Nodup.append
    · exact (getNeighbors_nodup rows cols q.1 q.2).filter _
    · exact ih _
    · intro x hx1 hx2
      have := (collectNextLevel_fst_mem rows cols rest _ x hx2).2
      exact this (List.mem_append.mpr (Or.inr hx1))

/-- The finite set of in-bounds positions of a `rows × cols` board. -/
def boundsFinset (rows cols : ℤ) : Finset (ℤ × ℤ) :=
  Finset.Icc 0 (rows - 1) ×ˢ Finset.Icc 0 (cols - 1)

theorem mem_boundsFinset {rows cols : ℤ} {p : ℤ × ℤ} :
    p ∈ boundsFinset rows cols ↔ 0 ≤ p.1 ∧ p.1 < rows ∧ 0 ≤ p.2 ∧ p.2 < cols := by
  cases p with
  | mk a b =>
    simp [boundsFinset, Finset.mem_product, Finset.mem_Icc]
    omega

theorem boundsFinset_card (rows cols : ℤ) :
    (boundsFinset rows cols).card = rows.toNat * cols.toNat := by
  rw [boundsFinset, Finset.card_product, Int.card_Icc, Int.card_Icc]
  congr 1 <;> omega

/-- The strict measure decrease behind `floodFillRecursive`'s termination:
either newly visited in-bounds cells shrink the unvisited board, or the next
level is empty and the level length drops to zero. -/
theorem floodFill_measure_decreases (rows cols : ℤ)
    (cellsToProcess visited : List (ℤ × ℤ)) (lvlLen : ℕ) (hlvl : 0 < lvlLen) :
    Prod.Lex (· < ·) (· < ·)
      ((((boundsFinset rows cols).card + 1)
          - (((collectNextLevel rows cols cellsToProcess visited).2).toFinset
              ∩ boundsFinset rows cols).card),
        (collectNextLevel rows cols cellsToProcess visited).1.length)
      ((((boundsFinset rows cols).card + 1)
          - (visited.toFinset ∩ boundsFinset rows cols).card), lvlLen) := by
  rcases hnl : (collectNextLevel rows cols cellsToProcess visited).1 with _ | ⟨x, xs⟩
  · rw [collectNextLevel_snd, hnl]
    simp only [List.append_nil]
    exact Prod.Lex.right _ (by simpa [hnl] using hlvl)
  · have hx : x ∈ (collectNextLevel rows cols cellsToProcess visited).1 := by
      rw [hnl]; exact List.mem_cons_self x xs
    obtain ⟨hb, hnv⟩ := collectNextLevel_fst_mem rows cols cellsToProcess visited x hx
    apply Prod.Lex.left
    rw [collectNextLevel_snd]
    have hsub : (visited.toFinset ∩ boundsFinset rows cols)
        ⊂ ((visited ++ (collectNextLevel rows cols cellsToProcess visited).1).toFinset
            ∩ boundsFinset rows cols) := by
      constructor
      · intro y hy
        rw [Finset.mem_inter] at hy ⊢
        refine ⟨?_, hy.2⟩
        rw [List.toFinset_append, Finset.mem_union]
        exact Or.inl hy.1
      · intro hcon
        have hxmem : x ∈ ((visited ++ (collectNextLevel rows cols cellsToProcess visited).1).toFinset
            ∩ boundsFinset rows cols) := by
          rw [Finset.mem_inter, List.toFinset_append, Finset.mem_union]
          exact ⟨Or.inr (by rw [List.mem_toFinset]; exact hx), mem_boundsFinset.mpr hb⟩
        have := hcon hxmem
        rw [Finset.mem_inter, List.mem_toFinset] at this
        exact hnv this.1
    have hlt := Finset.card_lt_card hsub
    have hle : (((visited ++ (collectNextLevel rows cols cellsToProcess visited).1).toFinset
        ∩ boundsFinset rows cols)).card ≤ (boundsFinset rows cols).card :=
      Finset.card_le_card (Finset.inter_subset_right)
    omega

/-- `floodFillRecursive` from the flood-fill source file: filter the current
level to cells still holding the original color, batch-repaint them, append a
snapshot, and recurse on the unvisited in-bounds neighbors of the repainted
cells. -/
def floodFillRecursive (grid : Grid) (currentLevel : List (ℤ × ℤ))
    (originalColor : Option String) (targetColor : String)
    (visited : List (ℤ × ℤ)) (rows cols : ℤ) (snapshots : List Grid) : List Grid :=
  if hlevel : currentLevel = [] then snapshots
  else
    let cellsToProcess := currentLevel.filter
      (fun p => shouldProcessCell grid p.1 p.2 originalColor)
    if hcells : cellsToProcess = [] then snapshots
    else
      let newGrid := processCellsAtLevel grid cellsToProcess targetColor
      let newSnapshots := snapshots ++ [cloneGrid newGrid]
      let next := collectNextLevel rows cols cellsToProcess visited
      floodFillRecursive newGrid next.1 originalColor targetColor next.2 rows cols newSnapshots
termination_by
  (((boundsFinset rows cols).card + 1)
      - (visited.toFinset ∩ boundsFinset rows cols).card, currentLevel.length)
decreasing_by
  exact floodFill_measure_decreases rows cols cellsToProcess visited currentLevel.length
    (by cases currentLevel with
        | nil => exact absurd rfl hlevel
        | cons a as => simp)

/-- `floodFill(grid, row, col, targetColor)` : returns the snapshot list (the
JS function wraps it as `{ snapshots }`). -/
def floodFill (grid : Grid) (row col : ℤ) (targetColor : String) : List Grid :=
  if ¬ isValidPosition grid row col then [cloneGrid grid]
  else
    let originalColor := getCellColor grid row col
    if originalColor = some targetColor then [cloneGrid grid]
    else
      let dims := getGridDimensions grid
      floodFillRecursive grid [(row, col)] originalColor targetColor
        [(row, col)] dims.1 dims.2 [cloneGrid grid]

/-! ## Connectivity, difference sets and invariants for the flood fill proofs -/

/-- 4-adjacency: `q` is one of the four neighbors of `p`. -/
def adjacent (p q : ℤ × ℤ) : Prop :=
  q = (p.1 - 1, p.2) ∨ q = (p.1 + 1, p.2) ∨ q = (p.1, p.2 - 1) ∨ q = (p.1, p.2 + 1)

instance (p q : ℤ × ℤ) : Decidable (adjacent p q) := by unfold adjacent; infer_instance

/-- The 4-connected component of cells of color `oc` in `g` reachable from
`start` (the spec's "maximal 4-connected region of one original color"). -/
inductive Connected (g : Grid) (oc : Option String) (start : ℤ × ℤ) : ℤ × ℤ → Prop
  | base : colorAt g start = oc → Connected g oc start start
  | step {p q : ℤ × ℤ} : Connected g oc start p → adjacent p q → colorAt g q = oc →
      Connected g oc start q

/-- In-bounds predicate for a `rows × cols` board. -/
def inBnd (rows cols : ℤ) (p : ℤ × ℤ) : Prop :=
  0 ≤ p.1 ∧ p.1 < rows ∧ 0 ≤ p.2 ∧ p.2 < cols

theorem isValidPosition_iff_inBnd (g : Grid) (r c : ℤ) :
    isValidPosition g r c = true ↔ inBnd (g.length : ℤ) ((g.headD []).length : ℤ) (r, c) := by
  unfold isValidPosition inBnd
  split
  · rename_i h
    simp only [Bool.false_eq_true, false_iff]
    intro hcon
    omega
  · rw [decide_eq_true_iff]

theorem mem_getNeighbors_iff {rows cols : ℤ} {q p : ℤ × ℤ} :
    p ∈ getNeighbors rows cols q.1 q.2 ↔ adjacent q p ∧ inBnd rows cols p := by
  rw [mem_getNeighbors]
  unfold adjacent inBnd
  tauto

/-- `p` is a position where `s` differs from the base grid `g₀`. -/
def diffAt (g₀ s : Grid) (p : ℤ × ℤ) : Prop := colorAt s p ≠ colorAt g₀ p

instance (g₀ s : Grid) (p : ℤ × ℤ) : Decidable (diffAt g₀ s p) := by
  unfold diffAt; infer_instance

/-- Strict growth of the difference set from `a` to `b` relative to `g₀`. -/
def growsFrom (g₀ a b : Grid) : Prop :=
  (∀ p, diffAt g₀ a p → diffAt g₀ b p) ∧ (∃ p, diffAt g₀ b p ∧ ¬ diffAt g₀ a p)

/-- In-bounds positions where `s` differs from `g₀`, as a finite set. -/
def diffFinset (rows cols : ℤ) (g₀ s : Grid) : Finset (ℤ × ℤ) :=
  (boundsFinset rows cols).filter (fun p => colorAt s p ≠ colorAt g₀ p)

theorem collectNextLevel_snd_mono (rows cols : ℤ) (cells visited : List (ℤ × ℤ)) :
    ∀ p ∈ visited, p ∈ (collectNextLevel rows cols cells visited).2 := by
  intro p hp
  rw [collectNextLevel_snd]
  exact List.mem_append.mpr (Or.inl hp)

theorem collectNextLevel_fst_source (rows cols : ℤ) (cells : List (ℤ × ℤ)) :
    ∀ visited p, p ∈ (collectNextLevel rows cols cells visited).1 →
      ∃ q ∈ cells, p ∈ getNeighbors rows cols q.1 q.2 := by
  induction cells with
  | nil => intro visited p h; simp [collectNextLevel] at h
  | cons q rest ih =>
    intro visited p h
    simp only [collectNextLevel, List.mem_append] at h
    rcases h with h | h
    · refine ⟨q, List.mem_cons_self q rest, ?_⟩
      unfold getUnvisitedNeighbors at h
      exact (List.mem_filter.mp h).1
    · obtain ⟨q', hq', hmem⟩ := ih _ p h
      exact ⟨q', List.mem_cons_of_mem q hq', hmem⟩

theorem collectNextLevel_covers (rows cols : ℤ) (cells : List (ℤ × ℤ)) :
    ∀ visited q, q ∈ cells → ∀ p, p ∈ getNeighbors rows cols q.1 q.2 →
      p ∈ (collectNextLevel rows cols cells visited).2 := by
  induction cells with
  | nil => intro visited q hq; simp at hq
  | cons q0 rest ih =>
    intro visited q hq p hp
    rcases List.mem_cons.mp hq with hq | hq
    · subst hq
      simp only [collectNextLevel]
      by_cases hv : p ∈ visited ++ getUnvisitedNeighbors rows cols q.1 q.2 visited
      · exact collectNextLevel_snd_mono rows cols rest _ p hv
      · exfalso
        apply hv
        rw [List.mem_append]
        by_cases hpv : p ∈ visited
        · exact Or.inl hpv
        · refine Or.inr ?_
          unfold getUnvisitedNeighbors
          rw [List.mem_filter]
          exact ⟨hp, by simpa using hpv⟩
    · simp only [collectNextLevel]
      exact ih _ q hq p hp

theorem rowLengths_processCellsAtLevel (cells : List (ℤ × ℤ)) (grid : Grid) (tc : String) :
    rowLengths (processCellsAtLevel grid cells tc) = rowLengths grid := by
  induction cells generalizing grid with
  | nil => rfl
  | cons p rest ih =>
    unfold processCellsAtLevel at ih ⊢
    simp only [List.foldl_cons]
    rw [ih, rowLengths_setCellColor]

/-- Pointwise description of a batch repaint of duplicate-free cells that all
currently hold a color. -/
theorem processCellsAtLevel_colorAt (cells : List (ℤ × ℤ)) (grid : Grid) (tc c₀ : String)
    (hval : ∀ p ∈ cells, colorAt grid p = some c₀) (hnd : cells.Nodup) (q : ℤ × ℤ) :
    colorAt (processCellsAtLevel grid cells tc) q
      = if q ∈ cells then some tc else colorAt grid q := by
  induction cells generalizing grid with
  | nil => simp [processCellsAtLevel]
  | cons p rest ih =>
    have hp : colorAt grid p = some c₀ := hval p (List.mem_cons_self p rest)
    have hset : ∀ r, colorAt (setCellColor grid p.1 p.2 tc) r
        = if p = r then some tc else colorAt grid r := by
      intro r
      unfold colorAt at hp ⊢
      rw [getCellColor_setCellColor hp tc r.1 r.2]
      congr 1
      · simp only [eq_iff_iff]
        constructor
        · intro ⟨h1, h2⟩
          exact Prod.ext h1 h2
        · intro h; exact ⟨congrArg Prod.fst h, congrArg Prod.snd h⟩
    have hvalrest : ∀ r ∈ rest, colorAt (setCellColor grid p.1 p.2 tc) r = some c₀ := by
      intro r hr
      rw [hset r]
      have hpr : p ≠ r := by
        intro h
        exact (List.nodup_cons.mp hnd).1 (h ▸ hr)
      rw [if_neg hpr]
      exact hval r (List.mem_cons_of_mem p hr)
    unfold processCellsAtLevel
    simp only [List.foldl_cons]
    have := ih (setCellColor grid p.1 p.2 tc) hvalrest (List.nodup_cons.mp hnd).2
    unfold processCellsAtLevel at this
    rw [this, hset q]
    by_cases hq1 : q ∈ rest
    · simp [hq1]
    · by_cases hq2 : p = q
      · simp [hq1, hq2]
      · have hq3 : ¬ q = p := fun h => hq2 h.symm
        simp [hq1, hq2, hq3]

theorem floodFillRecursive_nil (grid : Grid) (oc : Option String) (tc : String)
    (visited : List (ℤ × ℤ)) (rows cols : ℤ) (snaps : List Grid) :
    floodFillRecursive grid [] oc tc visited rows cols snaps = snaps := by
  rw [floodFillRecursive]
  simp

theorem floodFillRecursive_noCells (grid : Grid) (level : List (ℤ × ℤ)) (oc : Option String)
    (tc : String) (visited : List (ℤ × ℤ)) (rows cols : ℤ) (snaps : List Grid)
    (hne : level ≠ [])
    (hfilter : level.filter (fun p => shouldProcessCell grid p.1 p.2 oc) = []) :
    floodFillRecursive grid level oc tc visited rows cols snaps = snaps := by
  conv_lhs => rw [floodFillRecursive]
  simp only [dif_neg hne, hfilter]
  simp

theorem floodFillRecursive_step (grid : Grid) (level : List (ℤ × ℤ)) (oc : Option String)
    (tc : String) (visited : List (ℤ × ℤ)) (rows cols : ℤ) (snaps : List Grid)
    (hne : level ≠ [])
    (hfilter : level.filter (fun p => shouldProcessCell grid p.1 p.2 oc) ≠ []) :
    floodFillRecursive grid level oc tc visited rows cols snaps =
      floodFillRecursive
        (processCellsAtLevel grid (level.filter fun p => shouldProcessCell grid p.1 p.2 oc) tc)
        (collectNextLevel rows cols
          (level.filter fun p => shouldProcessCell grid p.1 p.2 oc) visited).1
        oc tc
        (collectNextLevel rows cols
          (level.filter fun p => shouldProcessCell grid p.1 p.2 oc) visited).2
        rows cols
        (snaps ++ [cloneGrid (processCellsAtLevel grid
          (level.filter fun p => shouldProcessCell grid p.1 p.2 oc) tc)]) := by
  conv_lhs => rw [floodFillRecursive]
  simp only [dif_neg hne, dif_neg hfilter]

/-- Invariant of the flood-fill recursion relating the current grid, level and
visited set to the original grid `g₀`, the original color `c₀`, the target
color `tc` and the start cell. -/
structure FillInv (g₀ : Grid) (c₀ tc : String) (start : ℤ × ℤ) (rows cols : ℤ)
    (grid : Grid) (level visited : List (ℤ × ℤ)) : Prop where
  shape : rowLengths grid = rowLengths g₀
  painted : ∀ p, diffAt g₀ grid p →
    colorAt grid p = some tc ∧ colorAt g₀ p = some c₀ ∧ Connected g₀ (some c₀) start p
  levelMem : ∀ p ∈ level, p ∈ visited ∧ colorAt grid p = colorAt g₀ p ∧
    (p = start ∨ ∃ q, diffAt g₀ grid q ∧ adjacent q p)
  levelNodup : level.Nodup
  complete : ∀ p ∈ visited, colorAt g₀ p = some c₀ → diffAt g₀ grid p ∨ p ∈ level
  closure : ∀ q, diffAt g₀ grid q → ∀ p, adjacent q p → inBnd rows cols p → p ∈ visited
  diffVisited : ∀ q, diffAt g₀ grid q → q ∈ visited

/-- Invariant of the snapshot accumulator: head is the original grid, last is
the current grid, difference sets only grow along the list, and every changed
cell shows the target color. -/
structure SnapInv (g₀ : Grid) (tc : String) (snaps : List Grid) (grid : Grid) : Prop where
  head : snaps.head? = some g₀
  last : snaps.getLast? = some grid
  mono : ∀ s ∈ snaps, ∀ p, diffAt g₀ s p → diffAt g₀ grid p
  paintedOnly : ∀ s ∈ snaps, ∀ p, diffAt g₀ s p → colorAt s p = some tc
  pairwise : snaps.Pairwise (growsFrom g₀)

/-- Master invariant theorem for `floodFillRecursive`: from a configuration
satisfying `FillInv`/`SnapInv`, the recursion produces a snapshot list still
satisfying `SnapInv` for some final grid whose difference set is closed,
complete and connected, with the snapshot count bounded by the unpainted
in-bounds cells. -/
theorem floodFillRecursive_spec (g₀ : Grid) (c₀ : String) (start : ℤ × ℤ) :
    ∀ (grid : Grid) (level : List (ℤ × ℤ)) (oc : Option String) (tc : String)
      (visited : List (ℤ × ℤ)) (rows cols : ℤ) (snaps : List Grid),
      oc = some c₀ → c₀ ≠ tc →
      rows = (g₀.length : ℤ) → cols = ((g₀.headD []).length : ℤ) →
      FillInv g₀ c₀ tc start rows cols grid level visited →
      SnapInv g₀ tc snaps grid →
      ∃ grid' visited',
        SnapInv g₀ tc (floodFillRecursive grid level oc tc visited rows cols snaps) grid' ∧
        (∀ p ∈ visited, p ∈ visited') ∧
        FillInv g₀ c₀ tc start rows cols grid' [] visited' ∧
        (floodFillRecursive grid level oc tc visited rows cols snaps).length
          ≤ snaps.length + ((boundsFinset rows cols).card
              - (diffFinset rows cols g₀ grid).card) := by
  intro grid level oc tc visited rows cols snaps
  induction grid, level, oc, tc, visited, rows, cols, snaps using floodFillRecursive.induct with
  | case1 grid oc tc visited rows cols snaps =>
    intro hoc hcne hrows hcols hinv hsnap
    rw [floodFillRecursive_nil]
    exact ⟨grid, visited, hsnap, fun p hp => hp, hinv, Nat.le_add_right _ _⟩
  | case2 grid level oc tc visited rows cols snaps hne cellsToProcess hcp =>
    intro hoc hcne hrows hcols hinv hsnap
    subst hoc
    rw [floodFillRecursive_noCells grid level (some c₀) tc visited rows cols snaps hne hcp]
    refine ⟨grid, visited, hsnap, fun p hp => hp, ?_, Nat.le_add_right _ _⟩
    refine ⟨hinv.shape, hinv.painted, by simp, List.nodup_nil, ?_, hinv.closure,
      hinv.diffVisited⟩
    -- completeness with an empty level: level cells holding c₀ would have been processed
    intro p hpv hg0
    rcases hinv.complete p hpv hg0 with hd | hpl
    · exact Or.inl hd
    · exfalso
      have hpc : colorAt grid p = some c₀ := by
        rw [(hinv.levelMem p hpl).2.1]; exact hg0
      have hmemf : p ∈ level.filter (fun q => shouldProcessCell grid q.1 q.2 (some c₀)) := by
        rw [List.mem_filter]
        refine ⟨hpl, ?_⟩
        unfold shouldProcessCell
        rw [decide_eq_true_iff]
        exact hpc
      have h0 : p ∈ cellsToProcess := hmemf
      rw [hcp] at h0
      simp at h0
  | case3 grid level oc tc visited rows cols snaps hne cellsToProcess hcp
      newGrid newSnaps next ih =>
    intro hoc hcne hrows hcols hinv hsnap
    subst hoc
    -- facts about the processed cells
    have hPmem : ∀ p ∈ cellsToProcess, p ∈ level ∧ colorAt grid p = some c₀ := by
      intro p hp
      have hmf := List.mem_filter.mp hp
      refine ⟨hmf.1, ?_⟩
      have h2 := hmf.2
      unfold shouldProcessCell at h2
      rw [decide_eq_true_iff] at h2
      exact h2
    have hPsub : ∀ p ∈ cellsToProcess, ¬ diffAt g₀ grid p ∧ colorAt g₀ p = some c₀ := by
      intro p hp
      obtain ⟨hpl, hpc⟩ := hPmem p hp
      have hlm := hinv.levelMem p hpl
      exact ⟨fun hd => hd hlm.2.1, by rw [← hlm.2.1]; exact hpc⟩
    have hPnodup : cellsToProcess.Nodup := hinv.levelNodup.filter _
    have hPvalid : ∀ p ∈ cellsToProcess, colorAt grid p = some c₀ :=
      fun p hp => (hPmem p hp).2
    have hnewAt : ∀ q, colorAt newGrid q
        = if q ∈ cellsToProcess then some tc else colorAt grid q :=
      processCellsAtLevel_colorAt cellsToProcess grid tc c₀ hPvalid hPnodup
    have hdiffNew : ∀ q, diffAt g₀ newGrid q ↔ (diffAt g₀ grid q ∨ q ∈ cellsToProcess) := by
      intro q
      unfold diffAt
      rw [hnewAt q]
      by_cases hq : q ∈ cellsToProcess
      · rw [if_pos hq, (hPsub q hq).2]
        simp only [hq, or_true, iff_true]
        intro hcon
        exact hcne (Option.some.inj hcon).symm
      · rw [if_neg hq]
        simp [hq, diffAt]
    have hnextsnd : next.2 = visited ++ next.1 :=
      collectNextLevel_snd rows cols cellsToProcess visited
    have hnextmem : ∀ p ∈ next.1, inBnd rows cols p ∧ p ∉ visited := by
      intro p hp
      exact collectNextLevel_fst_mem rows cols cellsToProcess visited p hp
    -- the new configuration invariant
    have hinv' : FillInv g₀ c₀ tc start rows cols newGrid next.1 next.2 := by
      refine ⟨?_, ?_, ?_, ?_, ?_, ?_, ?_⟩
      · rw [rowLengths_processCellsAtLevel]
        exact hinv.shape
      · intro p hd
        rcases (hdiffNew p).mp hd with hd' | hp
        · obtain ⟨h1, h2, h3⟩ := hinv.painted p hd'
          refine ⟨?_, h2, h3⟩
          rw [hnewAt p]
          split
          · rfl
          · exact h1
        · obtain ⟨hnd, hg0⟩ := hPsub p hp
          obtain ⟨hpl, hpc⟩ := hPmem p hp
          refine ⟨by rw [hnewAt p, if_pos hp], hg0, ?_⟩
          rcases (hinv.levelMem p hpl).2.2 with hstart | ⟨q, hq, hadj⟩
          · subst hstart
            exact Connected.base hg0
          · exact Connected.step (hinv.painted q hq).2.2 hadj hg0
      · intro p hp
        obtain ⟨hbnd, hnv⟩ := hnextmem p hp
        have hpP : p ∉ cellsToProcess :=
          fun hc => hnv (hinv.levelMem p (hPmem p hc).1).1
        refine ⟨by rw [hnextsnd]; exact List.mem_append.mpr (Or.inr hp), ?_, ?_⟩
        · rw [hnewAt p, if_neg hpP]
          by_contra hdp
          exact hnv (hinv.diffVisited p hdp)
        · obtain ⟨q, hqP, hqn⟩ :=
            collectNextLevel_fst_source rows cols cellsToProcess visited p hp
          exact Or.inr ⟨q, (hdiffNew q).mpr (Or.inr hqP),
            (mem_getNeighbors_iff.mp hqn).1⟩
      · exact collectNextLevel_fst_nodup rows cols cellsToProcess visited
      · intro p hpv hg0
        rw [hnextsnd, List.mem_append] at hpv
        rcases hpv with hpv | hpn
        · rcases hinv.complete p hpv hg0 with hd | hpl
          · exact Or.inl ((hdiffNew p).mpr (Or.inl hd))
          · have hlm := hinv.levelMem p hpl
            have hpc : colorAt grid p = some c₀ := by rw [hlm.2.1]; exact hg0
            have hpP : p ∈ cellsToProcess := by
              apply List.mem_filter.mpr
              refine ⟨hpl, ?_⟩
              unfold shouldProcessCell
              rw [decide_eq_true_iff]
              exact hpc
            exact Or.inl ((hdiffNew p).mpr (Or.inr hpP))
        · exact Or.inr hpn
      · intro q hdq p hadj hbnd
        rcases (hdiffNew q).mp hdq with hd | hqP
        · rw [hnextsnd]
          exact List.mem_append.mpr (Or.inl (hinv.closure q hd p hadj hbnd))
        · exact collectNextLevel_covers rows cols cellsToProcess visited q hqP p
            (mem_getNeighbors_iff.mpr ⟨hadj, hbnd⟩)
      · intro q hdq
        rw [hnextsnd]
        rcases (hdiffNew q).mp hdq with hd | hqP
        · exact List.mem_append.mpr (Or.inl (hinv.diffVisited q hd))
        · exact List.mem_append.mpr (Or.inl (hinv.levelMem q (hPmem q hqP).1).1)
    -- a freshly painted witness cell
    obtain ⟨p₀, hp₀⟩ : ∃ p, p ∈ cellsToProcess := by
      cases hcpx : cellsToProcess with
      | nil => exact absurd hcpx hcp
      | cons a as => exact ⟨a, hcpx ▸ List.mem_cons_self a as⟩
    have hp₀diff : diffAt g₀ newGrid p₀ := (hdiffNew p₀).mpr (Or.inr hp₀)
    have hp₀old : ¬ diffAt g₀ grid p₀ := (hPsub p₀ hp₀).1
    have hmonoGridNew : ∀ p, diffAt g₀ grid p → diffAt g₀ newGrid p :=
      fun p hd => (hdiffNew p).mpr (Or.inl hd)
    have hsnapne : snaps ≠ [] := by
      intro h
      have := hsnap.head
      rw [h] at this
      simp at this
    -- the new snapshot invariant
    have hsnap' : SnapInv g₀ tc newSnaps newGrid := by
      refine ⟨?_, ?_, ?_, ?_, ?_⟩
      · show (snaps ++ [cloneGrid newGrid]).head? = some g₀
        cases snaps with
        | nil => exact absurd rfl hsnapne
        | cons s ss =>
          have := hsnap.head
          simpa using this
      · show (snaps ++ [cloneGrid newGrid]).getLast? = some newGrid
        rw [cloneGrid_eq]
        simp
      · intro s hs p hd
        rw [List.mem_append] at hs
        rcases hs with hs | hs
        · exact hmonoGridNew p (hsnap.mono s hs p hd)
        · have hseq : s = cloneGrid newGrid := by simpa using hs
          rw [hseq, cloneGrid_eq] at hd
          exact hd
      · intro s hs p hd
        rw [List.mem_append] at hs
        rcases hs with hs | hs
        · exact hsnap.paintedOnly s hs p hd
        · have hseq : s = cloneGrid newGrid := by simpa using hs
          subst hseq
          rw [cloneGrid_eq] at hd ⊢
          exact (hinv'.painted p hd).1
      · show (snaps ++ [cloneGrid newGrid]).Pairwise (growsFrom g₀)
        rw [List.pairwise_append]
        refine ⟨hsnap.pairwise, by simp, ?_⟩
        intro s hs x hx
        have hxeq : x = cloneGrid newGrid := by simpa using hx
        subst hxeq
        rw [cloneGrid_eq]
        exact ⟨fun p hd => hmonoGridNew p (hsnap.mono s hs p hd),
          p₀, hp₀diff, fun hd => hp₀old (hsnap.mono s hs p₀ hd)⟩
    -- strict growth of the in-bounds difference set
    have hp₀b : p₀ ∈ boundsFinset rows cols := by
      have hv : isValidPosition grid p₀.1 p₀.2 = true :=
        isValidPosition_of_isSome (by
          have := hPvalid p₀ hp₀
          unfold colorAt at this
          rw [this]
          rfl)
      have hv0 : isValidPosition g₀ p₀.1 p₀.2 = true := by
        rw [← isValidPosition_congr hinv.shape]
        exact hv
      have hbn := (isValidPosition_iff_inBnd g₀ p₀.1 p₀.2).mp hv0
      rw [mem_boundsFinset, hrows, hcols]
      exact hbn
    have hDFsub : diffFinset rows cols g₀ grid ⊂ diffFinset rows cols g₀ newGrid := by
      constructor
      · intro x hx
        rw [diffFinset, Finset.mem_filter] at hx ⊢
        exact ⟨hx.1, (hdiffNew x).mpr (Or.inl hx.2)⟩
      · intro hcon
        have hp₀new : p₀ ∈ diffFinset rows cols g₀ newGrid :=
          Finset.mem_filter.mpr ⟨hp₀b, hp₀diff⟩
        have := hcon hp₀new
        rw [diffFinset, Finset.mem_filter] at this
        exact hp₀old this.2
    have hcard1 : (diffFinset rows cols g₀ grid).card
        < (diffFinset rows cols g₀ newGrid).card := Finset.card_lt_card hDFsub
    have hcard2 : (diffFinset rows cols g₀ newGrid).card ≤ (boundsFinset rows cols).card :=
      Finset.card_le_card (Finset.filter_subset _ _)
    -- apply the induction hypothesis and push the result back one step
    obtain ⟨grid', visited', ihsnap, ihvis, ihinv, ihlen⟩ :=
      ih rfl hcne hrows hcols hinv' hsnap'
    have heq : floodFillRecursive grid level (some c₀) tc visited rows cols snaps
        = floodFillRecursive newGrid next.1 (some c₀) tc next.2 rows cols newSnaps :=
      floodFillRecursive_step grid level (some c₀) tc visited rows cols snaps hne hcp
    refine ⟨grid', visited', ?_, ?_, ihinv, ?_⟩
    · rw [heq]
      exact ihsnap
    · intro p hp
      apply ihvis
      rw [hnextsnd]
      exact List.mem_append.mpr (Or.inl hp)
    · rw [heq]
      have hlen2 : newSnaps.length = snaps.length + 1 := by
        show (snaps ++ [cloneGrid newGrid]).length = snaps.length + 1
        simp
      rw [hlen2] at ihlen
      omega

theorem floodFill_invalid (g : Grid) (row col : ℤ) (t : String)
    (h : ¬ isValidPosition g row col = true) :
    floodFill g row col t = [g] := by
  unfold floodFill
  rw [if_pos h, cloneGrid_eq]

theorem floodFill_noop (g : Grid) (row col : ℤ) (t : String)
    (h : getCellColor g row col = some t) :
    floodFill g row col t = [g] := by
  unfold floodFill
  by_cases hv : isValidPosition g row col = true
  · rw [if_neg (fun hcon => hcon hv)]
    simp [h, cloneGrid_eq]
  · rw [if_pos hv, cloneGrid_eq]

theorem floodFill_main (g : Grid) (row col : ℤ) (t : String)
    (hv : isValidPosition g row col = true)
    (hno : ¬ getCellColor g row col = some t) :
    floodFill g row col t =
      floodFillRecursive g [(row, col)] (getCellColor g row col) t [(row, col)]
        (g.length : ℤ) ((g.headD []).length : ℤ) [g] := by
  have hlen : g.length ≠ 0 := by
    unfold isValidPosition at hv
    split at hv
    · simp at hv
    · assumption
  unfold floodFill
  rw [if_neg (fun hcon => hcon hv), if_neg hno]
  simp only [getGridDimensions, cloneGrid_eq, gt_iff_lt]
  rw [if_pos (Nat.pos_of_ne_zero hlen)]

/-- The flood-fill entry point, specialized to an actual fill: initial
configuration satisfies the invariants, so the master theorem applies. -/
theorem floodFill_spec (g : Grid) (row col : ℤ) (t : String)
    (hrect : Rectangular g)
    (hvalid : isValidPosition g row col = true)
    {c₀ : String} (hc₀ : getCellColor g row col = some c₀)
    (hne : c₀ ≠ t) :
    ∃ grid' visited',
      SnapInv g t (floodFill g row col t) grid' ∧
      ((row, col) ∈ visited') ∧
      FillInv g c₀ t (row, col) (g.length : ℤ) ((g.headD []).length : ℤ) grid' [] visited' ∧
      (floodFill g row col t).length ≤ g.length * (g.headD []).length + 1 := by
  have hno : ¬ getCellColor g row col = some t := by
    rw [hc₀]
    intro hcon
    exact hne (Option.some.inj hcon)
  have hstartcolor : colorAt g (row, col) = some c₀ := hc₀
  have hinv0 : FillInv g c₀ t (row, col) (g.length : ℤ) ((g.headD []).length : ℤ)
      g [(row, col)] [(row, col)] := by
    refine ⟨rfl, ?_, ?_, List.nodup_singleton _, ?_, ?_, ?_⟩
    · intro p hd
      exact absurd rfl hd
    · intro p hp
      have hpe : p = (row, col) := by simpa using hp
      subst hpe
      exact ⟨by simp, rfl, Or.inl rfl⟩
    · intro p hp _
      exact Or.inr hp
    · intro q hd
      exact absurd rfl hd
    · intro q hd
      exact absurd rfl hd
  have hsnap0 : SnapInv g t [g] g := by
    refine ⟨rfl, rfl, ?_, ?_, ?_⟩
    · intro s hs p hd
      have : s = g := by simpa using hs
      rw [this] at hd
      exact hd
    · intro s hs p hd
      have hseq : s = g := by simpa using hs
      rw [hseq] at hd
      exact absurd rfl hd
    · simp
  obtain ⟨grid', visited', hsnap', hvis', hinv', hlen'⟩ :=
    floodFillRecursive_spec g c₀ (row, col) g [(row, col)] (some c₀) t [(row, col)]
      (g.length : ℤ) ((g.headD []).length : ℤ) [g] rfl hne rfl rfl hinv0 hsnap0
  rw [← hc₀, ← floodFill_main g row col t hvalid hno] at hsnap' hlen'
  refine ⟨grid', visited', hsnap', hvis' (row, col) (by simp), hinv', ?_⟩
  refine hlen'.trans ?_
  have hble : ((boundsFinset (g.length : ℤ) ((g.headD []).length : ℤ)).card
      - (diffFinset (g.length : ℤ) ((g.headD []).length : ℤ) g g).card)
      ≤ g.length * (g.headD []).length := by
    have := boundsFinset_card (g.length : ℤ) ((g.headD []).length : ℤ)
    simp only [Int.toNat_natCast] at this
    omega
  have hone : ([g] : List Grid).length = 1 := rfl
  omega

/-- C1: for every rectangular grid `g`, valid start `(row,col)` and target
color `t` differing from the start cell's color, the set of cells whose color
differs between the last snapshot of `floodFill(g,row,col,t)` and `g` is
exactly the 4-connected component of cells of the start cell's original color
reachable from `(row,col)`, and every cell of that component has color `t` in
the last snapshot. -/
theorem claim_C1_floodFill_connectivity (g : Grid) (row col : ℤ) (t : String)
    (hrect : Rectangular g)
    (hvalid : isValidPosition g row col = true)
    (hneq : getCellColor g row col ≠ some t) :
    ∃ last, (floodFill g row col t).getLast? = some last ∧
      (∀ p : ℤ × ℤ, diffAt g last p ↔ Connected g (getCellColor g row col) (row, col) p) ∧
      (∀ p : ℤ × ℤ, Connected g (getCellColor g row col) (row, col) p →
        colorAt last p = some t) := by
  obtain ⟨c₀, hc₀⟩ := exists_cell_of_valid hrect hvalid
  have hne : c₀ ≠ t := fun h => hneq (h ▸ hc₀)
  obtain ⟨grid', visited', hsnap', hstart', hinv', _⟩ :=
    floodFill_spec g row col t hrect hvalid hc₀ hne
  have hiff : ∀ p : ℤ × ℤ, diffAt g grid' p ↔ Connected g (some c₀) (row, col) p := by
    intro p
    constructor
    · exact fun hd => (hinv'.painted p hd).2.2
    · intro hconn
      induction hconn with
      | base hcol =>
        rcases hinv'.complete (row, col) hstart' hcol with hd | hmem
        · exact hd
        · simp at hmem
      | @step p' q' hc hadj hcol ih =>
        have hq'some : (getCellColor g q'.1 q'.2).isSome := by
          unfold colorAt at hcol
          rw [hcol]
          rfl
        have hq'b : inBnd (g.length : ℤ) ((g.headD []).length : ℤ) q' := by
          have := (isValidPosition_iff_inBnd g q'.1 q'.2).mp
            (isValidPosition_of_isSome hq'some)
          exact this
        have hq'vis : q' ∈ visited' := hinv'.closure p' ih q' hadj hq'b
        rcases hinv'.complete q' hq'vis hcol with hd | hmem
        · exact hd
        · simp at hmem
  refine ⟨grid', hsnap'.last, ?_, ?_⟩
  · intro p
    rw [hc₀]
    exact hiff p
  · intro p hconn
    rw [hc₀] at hconn
    exact (hinv'.painted p ((hiff p).mpr hconn)).1

/-- C2: every call of `floodFill` on a (rectangular, per the data model)
grid returns a non-empty snapshot sequence whose first element is the
pre-fill grid; for `i < j` the set of cells differing from snapshot 0 at
index `i` is a strict subset of that at index `j` (so coverage strictly
grows after the first snapshot), and a repainted cell always shows the
uniform target color. -/
theorem claim_C2_snapshots_monotone (g : Grid) (row col : ℤ) (t : String)
    (hrect : Rectangular g) :
    floodFill g row col t ≠ [] ∧
    (floodFill g row col t).head? = some g ∧
    (∀ (i j : Fin (floodFill g row col t).length), i < j →
      (∀ p, diffAt g ((floodFill g row col t).get i) p →
        diffAt g ((floodFill g row col t).get j) p) ∧
      (∃ p, diffAt g ((floodFill g row col t).get j) p ∧
        ¬ diffAt g ((floodFill g row col t).get i) p)) ∧
    (∀ s ∈ floodFill g row col t, ∀ p, diffAt g s p → colorAt s p = some t) := by
  by_cases hv : isValidPosition g row col = true
  case neg =>
    rw [floodFill_invalid g row col t hv]
    refine ⟨by simp, rfl, ?_, ?_⟩
    · intro i j hij
      have hi := i.isLt
      have hj := j.isLt
      have := Fin.lt_def.mp hij
      simp only [List.length_singleton] at hi hj
      omega
    · intro s hs p hd
      have hseq : s = g := by simpa using hs
      rw [hseq] at hd
      exact absurd rfl hd
  case pos =>
    by_cases hno : getCellColor g row col = some t
    case pos =>
      rw [floodFill_noop g row col t hno]
      refine ⟨by simp, rfl, ?_, ?_⟩
      · intro i j hij
        have hi := i.isLt
        have hj := j.isLt
        have := Fin.lt_def.mp hij
        simp only [List.length_singleton] at hi hj
        omega
      · intro s hs p hd
        have hseq : s = g := by simpa using hs
        rw [hseq] at hd
        exact absurd rfl hd
    case neg =>
      obtain ⟨c₀, hc₀⟩ := exists_cell_of_valid hrect hv
      have hne : c₀ ≠ t := fun h => hno (h ▸ hc₀)
      obtain ⟨grid', visited', hsnap', _, _, _⟩ :=
        floodFill_spec g row col t hrect hv hc₀ hne
      have hpw := hsnap'.pairwise
      rw [List.pairwise_iff_get] at hpw
      refine ⟨?_, hsnap'.head, fun i j hij => hpw i j hij, hsnap'.paintedOnly⟩
      intro hcon
      have hh := hsnap'.head
      rw [hcon] at hh
      simp at hh

/-- C3: whenever the start position is invalid (in particular on the empty
grid, which has no valid positions) or the start cell already has the target
color, `floodFill` returns exactly one snapshot equal to the input grid, and
no error. -/
theorem claim_C3_degenerate_single_snapshot (g : Grid) (row col : ℤ) (t : String)
    (h : isValidPosition g row col = false ∨ getCellColor g row col = some t) :
    floodFill g row col t = [g] := by
  rcases h with h | h
  · exact floodFill_invalid g row col t (by rw [h]; simp)
  · exact floodFill_noop g row col t h

/-- C4: `floodFill` terminates on every finite (rectangular) grid with a
snapshot count bounded by the grid area plus one; in the embedding the
function is total by the `visited`-growth measure, and this theorem states
the snapshot bound. -/
theorem claim_C4_terminates_bounded (g : Grid) (row col : ℤ) (t : String)
    (hrect : Rectangular g) :
    (floodFill g row col t).length ≤ g.length * (g.headD []).length + 1 := by
  by_cases hv : isValidPosition g row col = true
  · by_cases hno : getCellColor g row col = some t
    · rw [floodFill_noop g row col t hno]
      simp
    · obtain ⟨c₀, hc₀⟩ := exists_cell_of_valid hrect hv
      have hne : c₀ ≠ t := fun h => hno (h ▸ hc₀)
      obtain ⟨_, _, _, _, _, hlen⟩ := floodFill_spec g row col t hrect hv hc₀ hne
      exact hlen
  · rw [floodFill_invalid g row col t hv]
    simp

/-- C6: `setCellColor` returns the grid unchanged on an invalid position, and
otherwise returns a grid of the same shape whose cell `(row,col)` is the new
color and whose every other cell equals the corresponding input cell. -/
theorem claim_C6_setCellColor_frame (g : Grid) (row col : ℤ) (x : String)
    (hrect : Rectangular g) :
    (isValidPosition g row col = false → setCellColor g row col x = g) ∧
    (isValidPosition g row col = true →
      getCellColor (setCellColor g row col x) row col = some x ∧
      (∀ r c : ℤ, ¬ (r = row ∧ c = col) →
        getCellColor (setCellColor g row col x) r c = getCellColor g r c) ∧
      rowLengths (setCellColor g row col x) = rowLengths g) := by
  constructor
  · exact fun h => setCellColor_invalid h x
  · intro hv
    obtain ⟨cv, hcv⟩ := exists_cell_of_valid hrect hv
    refine ⟨?_, ?_, rowLengths_setCellColor g row col x⟩
    · rw [getCellColor_setCellColor hcv x row col]
      simp
    · intro r c hrc
      rw [getCellColor_setCellColor hcv x r c]
      exact if_neg (fun hh => hrc ⟨hh.1.symm, hh.2.symm⟩)

theorem int_div_two_eq_floor (a : ℤ) : ⌊(a : ℚ) / 2⌋ = a / 2 := by
  have h1 : 2 * (a / 2) ≤ a := by omega
  have h2 : a < 2 * (a / 2) + 2 := by omega
  rw [Int.floor_eq_iff]
  constructor
  · rw [le_div_iff₀ (by norm_num : (0 : ℚ) < 2)]
    exact_mod_cast by linarith
  · rw [div_lt_iff₀ (by norm_num : (0 : ℚ) < 2)]
    exact_mod_cast by linarith

/-- C9: `determineFlipDirection` classifies a click against the floored grid
center, row before column, with strict inequalities, defaulting to
`"center"`. -/
theorem claim_C9_flip_direction (row col totalRows totalCols : ℤ) :
    (determineFlipDirection row col totalRows totalCols = "up" ↔
      row < ⌊(totalRows : ℚ) / 2⌋) ∧
    (determineFlipDirection row col totalRows totalCols = "down" ↔
      row > ⌊(totalRows : ℚ) / 2⌋) ∧
    (determineFlipDirection row col totalRows totalCols = "left" ↔
      (row = ⌊(totalRows : ℚ) / 2⌋ ∧ col < ⌊(totalCols : ℚ) / 2⌋)) ∧
    (determineFlipDirection row col totalRows totalCols = "right" ↔
      (row = ⌊(totalRows : ℚ) / 2⌋ ∧ col > ⌊(totalCols : ℚ) / 2⌋)) ∧
    (determineFlipDirection row col totalRows totalCols = "center" ↔
      (row = ⌊(totalRows : ℚ) / 2⌋ ∧ col = ⌊(totalCols : ℚ) / 2⌋)) := by
  rw [int_div_two_eq_floor, int_div_two_eq_floor]
  unfold determineFlipDirection
  dsimp only
  split_ifs with h1 h2 h3 h4 <;>
    refine ⟨?_, ?_, ?_, ?_, ?_⟩ <;> constructor <;> intro hh <;>
    first
      | rfl
      | omega
      | (exfalso; revert hh; decide)

theorem claim_C1_witness :
    Rectangular [["#FF0000", "#FF0000", "#00FF00"]] ∧
    isValidPosition [["#FF0000", "#FF0000", "#00FF00"]] 0 0 = true ∧
    getCellColor [["#FF0000", "#FF0000", "#00FF00"]] 0 0 ≠ some "#0000FF" ∧
    (∃ last, (floodFill [["#FF0000", "#FF0000", "#00FF00"]] 0 0 "#0000FF").getLast?
        = some last ∧
      (∀ p : ℤ × ℤ, diffAt [["#FF0000", "#FF0000", "#00FF00"]] last p ↔
        Connected [["#FF0000", "#FF0000", "#00FF00"]]
          (getCellColor [["#FF0000", "#FF0000", "#00FF00"]] 0 0) (0, 0) p) ∧
      (∀ p : ℤ × ℤ, Connected [["#FF0000", "#FF0000", "#00FF00"]]
          (getCellColor [["#FF0000", "#FF0000", "#00FF00"]] 0 0) (0, 0) p →
        colorAt last p = some "#0000FF")) :=
  ⟨by decide, by decide, by decide,
    claim_C1_floodFill_connectivity [["#FF0000", "#FF0000", "#00FF00"]] 0 0 "#0000FF"
      (by decide) (by decide) (by decide)⟩

theorem claim_C2_witness :
    Rectangular [["#FF0000", "#00FF00"]] ∧
    (floodFill [["#FF0000", "#00FF00"]] 0 0 "#0000FF" ≠ [] ∧
      (floodFill [["#FF0000", "#00FF00"]] 0 0 "#0000FF").head?
        = some [["#FF0000", "#00FF00"]] ∧
      (∀ (i j : Fin (floodFill [["#FF0000", "#00FF00"]] 0 0 "#0000FF").length), i < j →
        (∀ p, diffAt [["#FF0000", "#00FF00"]]
            ((floodFill [["#FF0000", "#00FF00"]] 0 0 "#0000FF").get i) p →
          diffAt [["#FF0000", "#00FF00"]]
            ((floodFill [["#FF0000", "#00FF00"]] 0 0 "#0000FF").get j) p) ∧
        (∃ p, diffAt [["#FF0000", "#00FF00"]]
            ((floodFill [["#FF0000", "#00FF00"]] 0 0 "#0000FF").get j) p ∧
          ¬ diffAt [["#FF0000", "#00FF00"]]
            ((floodFill [["#FF0000", "#00FF00"]] 0 0 "#0000FF").get i) p)) ∧
      (∀ s ∈ floodFill [["#FF0000", "#00FF00"]] 0 0 "#0000FF", ∀ p,
        diffAt [["#FF0000", "#00FF00"]] s p → colorAt s p = some "#0000FF")) :=
  ⟨by decide, claim_C2_snapshots_monotone [["#FF0000", "#00FF00"]] 0 0 "#0000FF" (by decide)⟩

theorem claim_C3_witness :
    (isValidPosition [["#FF0000"]] 5 5 = false ∨
      getCellColor [["#FF0000"]] 5 5 = some "#0000FF") ∧
    floodFill [["#FF0000"]] 5 5 "#0000FF" = [[["#FF0000"]]] :=
  ⟨Or.inl (by decide),
    claim_C3_degenerate_single_snapshot [["#FF0000"]] 5 5 "#0000FF" (Or.inl (by decide))⟩

theorem claim_C4_witness :
    Rectangular [["#FF0000", "#00FF00"]] ∧
    (floodFill [["#FF0000", "#00FF00"]] 0 0 "#0000FF").length ≤
      [["#FF0000", "#00FF00"]].length * ([["#FF0000", "#00FF00"]].headD []).length + 1 :=
  ⟨by decide, claim_C4_terminates_bounded [["#FF0000", "#00FF00"]] 0 0 "#0000FF" (by decide)⟩

theorem claim_C6_witness :
    Rectangular [["#FF0000", "#00FF00"]] ∧
    ((isValidPosition [["#FF0000", "#00FF00"]] 0 1 = false →
        setCellColor [["#FF0000", "#00FF00"]] 0 1 "#0000FF" = [["#FF0000", "#00FF00"]]) ∧
      (isValidPosition [["#FF0000", "#00FF00"]] 0 1 = true →
        getCellColor (setCellColor [["#FF0000", "#00FF00"]] 0 1 "#0000FF") 0 1
          = some "#0000FF" ∧
        (∀ r c : ℤ, ¬ (r = 0 ∧ c = 1) →
          getCellColor (setCellColor [["#FF0000", "#00FF00"]] 0 1 "#0000FF") r c
            = getCellColor [["#FF0000", "#00FF00"]] r c) ∧
        rowLengths (setCellColor [["#FF0000", "#00FF00"]] 0 1 "#0000FF")
          = rowLengths [["#FF0000", "#00FF00"]])) :=
  ⟨by decide, claim_C6_setCellColor_frame [["#FF0000", "#00FF00"]] 0 1 "#0000FF" (by decide)⟩

/-! ## Territory generator (src/core/grid.js)

JS numbers are modelled as elements of a linear ordered field `K` with floor
(the claim theorems instantiate `K := ℝ`); `Math.sin` and `Math.sqrt` are
passed as function parameters `sn`/`sq` (instantiated with `Real.sin` /
`Real.sqrt`), which keeps every definition compilable.  `Math.random()` is an
ambient stream `ρ : ℕ → K` of draws in `[0,1)` consumed in call order through
an explicit counter.  Cells under construction are `Option String`
(`none` = JS `null`). -/

/-- A grid of possibly-unfilled (`null`) cells, as built by the generator. -/
abbrev GenGrid := List (List (Option String))

/-- The fixed palette from the top of src/core/grid.js. -/
def CYBERPUNK_PALETTE : List String :=
  ["#FF006E", "#FB5607", "#FFBE0B", "#8338EC", "#3A86FF",
   "#06FFA5", "#00D9FF", "#FF10F0", "#00F5FF"]

section Generator

variable {K : Type} [LinearOrderedField K] [FloorRing K]

/-- JS truncation toward zero (the integer part used by the `%` operator). -/
def jsTrunc (x : K) : ℤ := if 0 ≤ x then ⌊x⌋ else -⌊-x⌋

/-- The JS `%` remainder: `a % b = a - b * trunc(a / b)` (sign of the
dividend). -/
def jsMod (a b : K) : K := a - b * (jsTrunc (a / b) : K)

/-- `simplex(x, y)` from src/core/grid.js: the trigonometric lattice hash. -/
def simplex (sn : K → K) (x y : K) : K :=
  sn (x * 12.9898 + y * 78.233) * sn (x * 39.346 + y * 14.234) * 43758.5453

/-- `perlinNoise(x, y, scale)` from src/core/grid.js: bilinear smoothstep
interpolation of the lattice hash, reduced with `% 1`. -/
def perlinNoise (sn : K → K) (x y scale : K) : K :=
  let xi : ℤ := ⌊x / scale⌋
  let yi : ℤ := ⌊y / scale⌋
  let n00 := simplex sn (xi : K) (yi : K)
  let n10 := simplex sn ((xi : K) + 1) (yi : K)
  let n01 := simplex sn (xi : K) ((yi : K) + 1)
  let n11 := simplex sn ((xi : K) + 1) ((yi : K) + 1)
  let u := jsMod x scale / scale
  let v := jsMod y scale / scale
  let uu := u * u * (3 - 2 * u)
  let vv := v * v * (3 - 2 * v)
  let n0 := n00 * (1 - uu) + n10 * uu
  let n1 := n01 * (1 - uu) + n11 * uu
  jsMod (n0 * (1 - vv) + n1 * vv) 1

/-- `randomCyberpunkColor()` for one draw `r`:
`CYBERPUNK_PALETTE[Math.floor(r * CYBERPUNK_PALETTE.length)]` (in range for
`r ∈ [0,1)`; the `getD ""` default is unreachable there). -/
def randomCyberpunkColor (r : K) : String :=
  (CYBERPUNK_PALETTE[(⌊r * (CYBERPUNK_PALETTE.length : K)⌋).toNat]?).getD ""

/-- `calculateTerritoryCount(rows, cols, organicness)` from src/core/grid.js. -/
def calculateTerritoryCount (sq : K → K) (rows cols : ℤ) (organicness : K) : ℤ :=
  let baseNumTerritories : K := ((rows * cols : ℤ) : K)
  let minTerritories : K := max 2 ((⌊sq ((rows * cols : ℤ) : K) / 2⌋ : ℤ) : K)
  ⌊minTerritories + (baseNumTerritories - minTerritories) * ((100 - organicness) / 100)⌋

/-- A territory: color, owned cells, and current growth frontier.  The JS
frontier is a `Set` of `"r,c"` keys iterated in insertion order, modelled by
the (duplicate-free, in insertion order) list of pairs. -/
structure Territory where
  color : String
  cells : List (ℤ × ℤ)
  frontier : List (ℤ × ℤ)

/-- `createTerritorySeeds(numTerritories, rows, cols)`: each territory draws
its start row, start column and color in that order. -/
def createTerritorySeeds (ρ : ℕ → K) (k : ℕ) (numTerritories : ℕ) (rows cols : ℤ) :
    List Territory × ℕ :=
  match numTerritories with
  | 0 => ([], k)
  | n + 1 =>
    let startRow : ℤ := ⌊ρ k * (rows : K)⌋
    let startCol : ℤ := ⌊ρ (k + 1) * (cols : K)⌋
    let color := randomCyberpunkColor (ρ (k + 2))
    let rest := createTerritorySeeds ρ (k + 3) n rows cols
    ({ color := color, cells := [(startRow, startCol)],
       frontier := [(startRow, startCol)] } :: rest.1, rest.2)

/-- `calculateGrowthProbability(row, col, seed, organicness)` from
src/core/grid.js: `0.3 + |perlinNoise(row+seed, col+seed, 2)| * 0.4
+ (organicness / 100) * 0.4` — note: no clamping in the source. -/
def calculateGrowthProbability (sn : K → K) (row col seed organicness : K) : K :=
  let noise := |perlinNoise sn (row + seed) (col + seed) 2|
  let baseGrowth := 0.3 + noise * 0.4
  baseGrowth + organicness / 100 * 0.4

/-- `getUnfilledNeighbors(grid, rows, cols, r, c)`: in-bounds 4-neighbors
whose cell is strictly `null` (`=== null`; a missing cell compares false). -/
def getUnfilledNeighbors (grid : GenGrid) (rows cols r c : ℤ) : List (ℤ × ℤ) :=
  [(r - 1, c), (r + 1, c), (r, c - 1), (r, c + 1)].filter
    (fun q => decide (0 ≤ q.1 ∧ q.1 < rows ∧ 0 ≤ q.2 ∧ q.2 < cols ∧
      (listGetI grid q.1).bind (fun rw => listGetI rw q.2) = some none))

/-- The random admission filter inside `growFromCell`: one draw per unfilled
neighbor, in list order, admitted when `draw < growthChance`. -/
def growFromCellAux (sn : K → K) (ρ : ℕ → K) (seed organicness : K) :
    ℕ → List (ℤ × ℤ) → List (ℤ × ℤ) × ℕ
  | k, [] => ([], k)
  | k, q :: rest =>
    let growthChance := calculateGrowthProbability sn (q.1 : K) (q.2 : K) seed organicness
    let keep : Bool := decide (ρ k < growthChance)
    let next := growFromCellAux sn ρ seed organicness (k + 1) rest
    (if keep then q :: next.1 else next.1, next.2)

/-- `growFromCell(grid, cellStr, rows, cols, seed, organicness)` (the cell is
passed as a pair rather than a `"r,c"` string). -/
def growFromCell (sn : K → K) (ρ : ℕ → K) (k : ℕ) (grid : GenGrid)
    (r c rows cols : ℤ) (seed organicness : K) : List (ℤ × ℤ) × ℕ :=
  growFromCellAux sn ρ seed organicness k (getUnfilledNeighbors grid rows cols r c)

/-- A direct in-place style cell write `grid[r][c] = v` (always used
in-bounds by the generator), as an index-aware map. -/
def genSet (g : GenGrid) (r c : ℤ) (v : Option String) : GenGrid :=
  g.mapIdx (fun i rowv =>
    if (i : ℤ) = r then rowv.mapIdx (fun j cell => if (j : ℤ) = c then v else cell)
    else rowv)

/-- The loop `for (const cellStr of territory.frontier)` in
`growTerritoriesIteration`: grown cells are painted immediately, so later
frontier cells (and later territories) see them as filled. -/
def growTerritoryFromFrontier (sn : K → K) (ρ : ℕ → K) (color : String)
    (rows cols : ℤ) (seed organicness : K) :
    ℕ → GenGrid → List (ℤ × ℤ) → GenGrid × List (ℤ × ℤ) × ℕ
  | k, grid, [] => (grid, [], k)
  | k, grid, fc :: rest =>
    let grown := growFromCell sn ρ k grid fc.1 fc.2 rows cols seed organicness
    let grid' := grown.1.foldl (fun g q => genSet g q.1 q.2 (some color)) grid
    let next := growTerritoryFromFrontier sn ρ color rows cols seed organicness
      grown.2 grid' rest
    (next.1, grown.1 ++ next.2.1, next.2.2)

/-- `growTerritoriesIteration(grid, territories, rows, cols, seed,
organicness)`: grows every territory once (the JS row copy of the grid is the
identity on values); returns the new grid, updated territories, the number of
still-active territories and the advanced draw counter. -/
def growTerritoriesIteration (sn : K → K) (ρ : ℕ → K) (rows cols : ℤ)
    (seed organicness : K) :
    ℕ → GenGrid → List Territory → GenGrid × List Territory × ℕ × ℕ
  | k, grid, [] => (grid, [], 0, k)
  | k, grid, t :: ts =>
    let g1 := growTerritoryFromFrontier sn ρ t.color rows cols seed organicness
      k grid t.frontier
    let newT : Territory :=
      { color := t.color, cells := t.cells ++ g1.2.1, frontier := g1.2.1 }
    let rest := growTerritoriesIteration sn ρ rows cols seed organicness
      g1.2.2 g1.1 ts
    (rest.1, newT :: rest.2.1,
      (if g1.2.1.length > 0 then 1 else 0) + rest.2.2.1, rest.2.2.2)

/-- The bounded growth loop of `generateGridWithZones`: at most
`maxIterations` rounds, stopping early when no territory is active. -/
def growLoop (sn : K → K) (ρ : ℕ → K) (rows cols : ℤ) (seed organicness : K) :
    ℕ → GenGrid → List Territory → ℕ → ℕ → GenGrid × ℕ
  | 0, grid, _, _, k => (grid, k)
  | fuel + 1, grid, territories, activeCount, k =>
    if activeCount = 0 then (grid, k)
    else
      let it := growTerritoriesIteration sn ρ rows cols seed organicness k grid territories
      growLoop sn ρ rows cols seed organicness fuel it.1 it.2.1 it.2.2.1 it.2.2.2

/-- The `dr/dc` scan order of `findClosestColoredNeighbor`'s nested loops. -/
def fccnOffsets : List (ℤ × ℤ) :=
  ([-2, -1, 0, 1, 2] : List ℤ).flatMap
    (fun dr => ([-2, -1, 0, 1, 2] : List ℤ).map (fun dc => (dr, dc)))

/-- One step of `findClosestColoredNeighbor`'s scan, carrying
`(closest, minDist)` (`none` = `(null, Infinity)`); keeps a colored in-bounds
cell at strictly smaller Manhattan distance.  The JS condition is
`grid[nr][nc] !== null`, matched here as "the cell exists and is non-null":
the two differ only when an in-bounds cell is missing (`undefined`), which
cannot happen for the exactly-shaped grids this generator builds. -/
def fccnStep (grid : GenGrid) (row col rows cols : ℤ)
    (st : Option (String × ℤ)) (d : ℤ × ℤ) : Option (String × ℤ) :=
  let nr := row + d.1
  let nc := col + d.2
  if 0 ≤ nr ∧ nr < rows ∧ 0 ≤ nc ∧ nc < cols then
    match (listGetI grid nr).bind (fun rw => listGetI rw nc) with
    | some (some cv) =>
      let dist := |d.1| + |d.2|
      match st with
      | none => some (cv, dist)
      | some s => if dist < s.2 then some (cv, dist) else st
    | _ => st
  else st

/-- `findClosestColoredNeighbor(grid, row, col, rows, cols)`. -/
def findClosestColoredNeighbor (grid : GenGrid) (row col rows cols : ℤ) : Option String :=
  (fccnOffsets.foldl (fccnStep grid row col rows cols) none).map Prod.fst

/-- One row of `fillRemainingCells`: non-null cells pass through, null cells
take the closest colored neighbor, or (lazily, `||`) a fresh random palette
color; a falsy `""` color would also fall through to the random branch. -/
def fillRowAux (ρ : ℕ → K) (grid : GenGrid) (rows cols : ℤ) (r : ℤ) :
    ℕ → ℤ → List (Option String) → List String × ℕ
  | k, _, [] => ([], k)
  | k, c, cell :: rest =>
    match cell with
    | some s =>
      let next := fillRowAux ρ grid rows cols r k (c + 1) rest
      (s :: next.1, next.2)
    | none =>
      match findClosestColoredNeighbor grid r c rows cols with
      | some s =>
        if s = "" then
          let next := fillRowAux ρ grid rows cols r (k + 1) (c + 1) rest
          (randomCyberpunkColor (ρ k) :: next.1, next.2)
        else
          let next := fillRowAux ρ grid rows cols r k (c + 1) rest
          (s :: next.1, next.2)
      | none =>
        let next := fillRowAux ρ grid rows cols r (k + 1) (c + 1) rest
        (randomCyberpunkColor (ρ k) :: next.1, next.2)

/-- `fillRemainingCells(grid, rows, cols)`, threading the draw counter
row-major through the two nested maps. -/
def fillRemainingCellsAux (ρ : ℕ → K) (grid : GenGrid) (rows cols : ℤ) :
    ℕ → ℤ → List (List (Option String)) → List (List String) × ℕ
  | k, _, [] => ([], k)
  | k, r, rowv :: rest =>
    let fr := fillRowAux ρ grid rows cols r k 0 rowv
    let next := fillRemainingCellsAux ρ grid rows cols fr.2 (r + 1) rest
    (fr.1 :: next.1, next.2)

def fillRemainingCells (ρ : ℕ → K) (k : ℕ) (grid : GenGrid) (rows cols : ℤ) :
    List (List String) × ℕ :=
  fillRemainingCellsAux ρ grid rows cols k 0 grid

/-- The `organicness === 0` branch: every cell gets an independent random
palette color, row-major. -/
def fillAllRandomRow (ρ : ℕ → K) : ℕ → List (Option String) → List String × ℕ
  | k, [] => ([], k)
  | k, _ :: rest =>
    let next := fillAllRandomRow ρ (k + 1) rest
    (randomCyberpunkColor (ρ k) :: next.1, next.2)

def fillAllRandom (ρ : ℕ → K) : ℕ → GenGrid → List (List String) × ℕ
  | k, [] => ([], k)
  | k, rowv :: rest =>
    let fr := fillAllRandomRow ρ k rowv
    let next := fillAllRandom ρ fr.2 rest
    (fr.1 :: next.1, next.2)

/-- `generateGridWithZones(rows, cols, organicness)` from src/core/grid.js:
empty for non-positive dimensions; pure per-cell randomness at
`organicness === 0`; otherwise seeded probabilistic territory growth for at
most `rows*cols` iterations followed by nearest-neighbor fill. -/
def generateGridWithZones (sn sq : K → K) (ρ : ℕ → K) (rows cols : ℤ)
    (organicness : K) : List (List String) :=
  if rows ≤ 0 ∨ cols ≤ 0 then []
  else
    let seed := ρ 0 * 10000
    let grid0 : GenGrid := List.replicate rows.toNat (List.replicate cols.toNat none)
    if organicness = 0 then (fillAllRandom ρ 1 grid0).1
    else
      let numTerritories := calculateTerritoryCount sq rows cols organicness
      let seeds := createTerritorySeeds ρ 1 numTerritories.toNat rows cols
      let grid1 := seeds.1.foldl
        (fun g t => genSet g (t.cells.headD (0, 0)).1 (t.cells.headD (0, 0)).2
          (some t.color)) grid0
      let maxIterations := (rows * cols).toNat
      let loop := growLoop sn ρ rows cols seed organicness maxIterations grid1
        seeds.1 seeds.1.length seeds.2
      (fillRemainingCells ρ loop.2 loop.1 rows cols).1

/-- `generateGrid(rows, cols)` from src/core/grid.js: purely random palette
cells, or the empty grid for non-positive dimensions. -/
def genRowRandom (ρ : ℕ → K) : ℕ → ℕ → List String × ℕ
  | k, 0 => ([], k)
  | k, n + 1 =>
    let next := genRowRandom ρ (k + 1) n
    (randomCyberpunkColor (ρ k) :: next.1, next.2)

def genGridRandom (ρ : ℕ → K) (cols : ℕ) : ℕ → ℕ → List (List String) × ℕ
  | _, 0 => ([], 0)
  | k, n + 1 =>
    let rowv := genRowRandom ρ k cols
    let next := genGridRandom ρ cols rowv.2 n
    (rowv.1 :: next.1, next.2)

def generateGrid (ρ : ℕ → K) (rows cols : ℤ) : List (List String) :=
  if rows ≤ 0 ∨ cols ≤ 0 then []
  else (genGridRandom ρ cols.toNat 0 rows.toNat).1

/-- A valid behaviour of `Math.random()`: every draw lies in `[0, 1)`. -/
def RandSrc (ρ : ℕ → K) : Prop := ∀ n, 0 ≤ ρ n ∧ ρ n < 1

end Generator

/-! ## Shape preservation through the generator (claim C5) -/

/-- An exact `rows × cols` shape. -/
def genShape (rows cols : ℕ) (g : GenGrid) : Prop :=
  g.length = rows ∧ ∀ rw ∈ g, rw.length = cols

/-- An exact `rows × cols` shape for a finished (all-`String`) grid. -/
def gridShape (rows cols : ℕ) (g : List (List String)) : Prop :=
  g.length = rows ∧ ∀ rw ∈ g, rw.length = cols

theorem exists_of_mem_mapIdx {α β : Type} {l : List α} {f : ℕ → α → β} {b : β}
    (h : b ∈ l.mapIdx f) : ∃ i a, l[i]? = some a ∧ b = f i a := by
  rw [List.mem_iff_getElem?] at h
  obtain ⟨i, hi⟩ := h
  rw [getElem?_mapIdx] at hi
  cases ha : l[i]? with
  | none => rw [ha] at hi; simp at hi
  | some a =>
    rw [ha] at hi
    simp only [Option.map_some', Option.some.injEq] at hi
    exact ⟨i, a, ha, hi.symm⟩

theorem genShape_genSet {rows cols : ℕ} {g : GenGrid} (h : genShape rows cols g)
    (r c : ℤ) (v : Option String) : genShape rows cols (genSet g r c v) := by
  constructor
  · rw [genSet, length_mapIdx']
    exact h.1
  · intro rw hrw
    obtain ⟨i, a, ha, hb⟩ := exists_of_mem_mapIdx hrw
    have hmem : a ∈ g := List.mem_iff_getElem?.mpr ⟨i, ha⟩
    have hlen : a.length = cols := h.2 a hmem
    rw [hb]
    split
    · rw [length_mapIdx']
      exact hlen
    · exact hlen

theorem genShape_foldl_genSet {rows cols : ℕ} (l : List (ℤ × ℤ)) (v : Option String) :
    ∀ g : GenGrid, genShape rows cols g →
      genShape rows cols (l.foldl (fun g q => genSet g q.1 q.2 v) g) := by
  induction l with
  | nil => intro g h; exact h
  | cons q rest ih =>
    intro g h
    simp only [List.foldl_cons]
    exact ih _ (genShape_genSet h q.1 q.2 v)

section GeneratorLemmas

variable {K : Type} [LinearOrderedField K] [FloorRing K]

theorem genShape_growTFF (sn : K → K) (ρ : ℕ → K) (color : String)
    (rows cols : ℤ) (seed organicness : K) (shR shC : ℕ) :
    ∀ (fr : List (ℤ × ℤ)) (k : ℕ) (grid : GenGrid), genShape shR shC grid →
      genShape shR shC
        (growTerritoryFromFrontier sn ρ color rows cols seed organicness k grid fr).1 := by
  intro fr
  induction fr with
  | nil => intro k grid h; exact h
  | cons fc rest ih =>
    intro k grid h
    simp only [growTerritoryFromFrontier]
    exact ih _ _ (genShape_foldl_genSet _ _ _ h)

theorem genShape_growIteration (sn : K → K) (ρ : ℕ → K) (rows cols : ℤ)
    (seed organicness : K) (shR shC : ℕ) :
    ∀ (ts : List Territory) (k : ℕ) (grid : GenGrid), genShape shR shC grid →
      genShape shR shC
        (growTerritoriesIteration sn ρ rows cols seed organicness k grid ts).1 := by
  intro ts
  induction ts with
  | nil => intro k grid h; exact h
  | cons t rest ih =>
    intro k grid h
    simp only [growTerritoriesIteration]
    exact ih _ _ (genShape_growTFF sn ρ t.color rows cols seed organicness shR shC
      t.frontier k grid h)

theorem genShape_growLoop (sn : K → K) (ρ : ℕ → K) (rows cols : ℤ)
    (seed organicness : K) (shR shC : ℕ) :
    ∀ (fuel : ℕ) (grid : GenGrid) (ts : List Territory) (ac k : ℕ),
      genShape shR shC grid →
      genShape shR shC (growLoop sn ρ rows cols seed organicness fuel grid ts ac k).1 := by
  intro fuel
  induction fuel with
  | zero => intro grid ts ac k h; exact h
  | succ n ih =>
    intro grid ts ac k h
    simp only [growLoop]
    split
    · exact h
    · exact ih _ _ _ _ (genShape_growIteration sn ρ rows cols seed organicness shR shC ts k grid h)

theorem fillRowAux_length (ρ : ℕ → K) (grid : GenGrid) (rows cols r : ℤ) :
    ∀ (rowv : List (Option String)) (k : ℕ) (c : ℤ),
      (fillRowAux ρ grid rows cols r k c rowv).1.length = rowv.length := by
  intro rowv
  induction rowv with
  | nil => intro k c; rfl
  | cons cell rest ih =>
    intro k c
    cases cell with
    | some s => simp only [fillRowAux, List.length_cons, ih]
    | none =>
      simp only [fillRowAux]
      cases findClosestColoredNeighbor grid r c rows cols with
      | some s =>
        by_cases hs : s = ""
        · simp only [if_pos hs, List.length_cons, ih]
        · simp only [if_neg hs, List.length_cons, ih]
      | none => simp only [List.length_cons, ih]

theorem fillRemainingCellsAux_shape (ρ : ℕ → K) (grid : GenGrid) (rows cols : ℤ)
    (shC : ℕ) :
    ∀ (rest : List (List (Option String))) (k : ℕ) (r : ℤ),
      (∀ rw ∈ rest, rw.length = shC) →
      (fillRemainingCellsAux ρ grid rows cols k r rest).1.length = rest.length ∧
      ∀ rw ∈ (fillRemainingCellsAux ρ grid rows cols k r rest).1, rw.length = shC := by
  intro rest
  induction rest with
  | nil =>
    intro k r _
    exact ⟨rfl, by intro rw hrw; simp [fillRemainingCellsAux] at hrw⟩
  | cons rowv rest' ih =>
    intro k r hlen
    simp only [fillRemainingCellsAux]
    obtain ⟨ih1, ih2⟩ := ih (fillRowAux ρ grid rows cols r k 0 rowv).2 (r + 1)
      (fun rw hrw => hlen rw (List.mem_cons_of_mem rowv hrw))
    refine ⟨by simp [ih1], ?_⟩
    intro rw hrw
    rcases List.mem_cons.mp hrw with hrw | hrw
    · rw [hrw, fillRowAux_length]
      exact hlen rowv (List.mem_cons_self rowv rest')
    · exact ih2 rw hrw

theorem fillAllRandomRow_length (ρ : ℕ → K) :
    ∀ (rowv : List (Option String)) (k : ℕ),
      (fillAllRandomRow ρ k rowv).1.length = rowv.length := by
  intro rowv
  induction rowv with
  | nil => intro k; rfl
  | cons cell rest ih => intro k; simp only [fillAllRandomRow, List.length_cons, ih]

theorem fillAllRandom_shape (ρ : ℕ → K) (shC : ℕ) :
    ∀ (g : GenGrid) (k : ℕ), (∀ rw ∈ g, rw.length = shC) →
      (fillAllRandom ρ k g).1.length = g.length ∧
      ∀ rw ∈ (fillAllRandom ρ k g).1, rw.length = shC := by
  intro g
  induction g with
  | nil =>
    intro k _
    exact ⟨rfl, by intro rw hrw; simp [fillAllRandom] at hrw⟩
  | cons rowv rest ih =>
    intro k hlen
    simp only [fillAllRandom]
    obtain ⟨ih1, ih2⟩ := ih (fillAllRandomRow ρ k rowv).2
      (fun rw hrw => hlen rw (List.mem_cons_of_mem rowv hrw))
    refine ⟨by simp [ih1], ?_⟩
    intro rw hrw
    rcases List.mem_cons.mp hrw with hrw | hrw
    · rw [hrw, fillAllRandomRow_length]
      exact hlen rowv (List.mem_cons_self rowv rest)
    · exact ih2 rw hrw

theorem genShape_replicate (shR shC : ℕ) :
    genShape shR shC (List.replicate shR (List.replicate shC (none : Option String))) := by
  constructor
  · simp
  · intro rw hrw
    have := List.eq_of_mem_replicate hrw
    rw [this]
    simp

theorem genShape_foldl_seedPlacement {shR shC : ℕ} (ts : List Territory) :
    ∀ g : GenGrid, genShape shR shC g →
      genShape shR shC (ts.foldl
        (fun g t => genSet g (t.cells.headD (0, 0)).1 (t.cells.headD (0, 0)).2
          (some t.color)) g) := by
  induction ts with
  | nil => intro g h; exact h
  | cons t rest ih =>
    intro g h
    simp only [List.foldl_cons]
    exact ih _ (genShape_genSet h _ _ _)

/-- The shape of every intermediate grid of `generateGridWithZones`. -/
theorem generateGridWithZones_shape (sn sq : K → K) (ρ : ℕ → K) (rows cols : ℤ)
    (organicness : K) (h1 : 0 < rows) (h2 : 0 < cols) :
    gridShape rows.toNat cols.toNat (generateGridWithZones sn sq ρ rows cols organicness) := by
  unfold generateGridWithZones
  rw [if_neg (by omega)]
  by_cases ho : organicness = 0
  case pos =>
    rw [if_pos ho]
    have h0 := genShape_replicate rows.toNat cols.toNat
    obtain ⟨hl, hr⟩ := fillAllRandom_shape ρ cols.toNat
      (List.replicate rows.toNat (List.replicate cols.toNat none)) 1
      (fun rw hrw => h0.2 rw hrw)
    exact ⟨by rw [hl]; simp, hr⟩
  case neg =>
    rw [if_neg ho]
    dsimp only
    have h0 := genShape_replicate rows.toNat cols.toNat
    have hseed := genShape_foldl_seedPlacement
      (createTerritorySeeds ρ 1 (calculateTerritoryCount sq rows cols organicness).toNat
        rows cols).1 _ h0
    have hloop := genShape_growLoop sn ρ rows cols (ρ 0 * 10000) organicness
      rows.toNat cols.toNat (rows * cols).toNat _
      (createTerritorySeeds ρ 1 (calculateTerritoryCount sq rows cols organicness).toNat
        rows cols).1
      (createTerritorySeeds ρ 1 (calculateTerritoryCount sq rows cols organicness).toNat
        rows cols).1.length
      (createTerritorySeeds ρ 1 (calculateTerritoryCount sq rows cols organicness).toNat
        rows cols).2 hseed
    unfold fillRemainingCells
    obtain ⟨hl, hr⟩ := fillRemainingCellsAux_shape ρ _ rows cols cols.toNat _ _ 0
      (fun rw hrw => hloop.2 rw hrw)
    refine ⟨?_, hr⟩
    rw [hl]
    exact hloop.1

/-! ## Palette membership through the generator (claim C10) -/

/-- Every filled cell of a generator grid carries a palette color. -/
def palGrid (g : GenGrid) : Prop :=
  ∀ rw ∈ g, ∀ cell ∈ rw, ∀ s, cell = some s → s ∈ CYBERPUNK_PALETTE

/-- Every territory's color is a palette color. -/
def terrPal (ts : List Territory) : Prop := ∀ t ∈ ts, t.color ∈ CYBERPUNK_PALETTE

theorem listGetI_mem {α : Type} {l : List α} {i : ℤ} {a : α}
    (h : listGetI l i = some a) : a ∈ l := by
  unfold listGetI at h
  split at h
  · exact List.mem_iff_getElem?.mpr ⟨i.toNat, h⟩
  · exact absurd h (by simp)

section PaletteLemmas

variable {K : Type} [LinearOrderedField K] [FloorRing K]

theorem randomCyberpunkColor_mem {r : K} (h0 : 0 ≤ r) (h1 : r < 1) :
    randomCyberpunkColor r ∈ CYBERPUNK_PALETTE := by
  have h9 : ((CYBERPUNK_PALETTE.length : ℕ) : K) = 9 := by
    norm_num [CYBERPUNK_PALETTE]
  have hnn : (0 : K) ≤ r * 9 := by positivity
  have hlt : r * (9 : K) < 9 := by nlinarith
  have hf0 : 0 ≤ ⌊r * (9 : K)⌋ := Int.floor_nonneg.mpr hnn
  have hf9 : ⌊r * (9 : K)⌋ < 9 := by
    apply Int.floor_lt.mpr
    push_cast
    exact hlt
  have hidx : (⌊r * (9 : K)⌋).toNat < CYBERPUNK_PALETTE.length := by
    have : CYBERPUNK_PALETTE.length = 9 := by norm_num [CYBERPUNK_PALETTE]
    omega
  unfold randomCyberpunkColor
  rw [h9, List.getElem?_eq_getElem hidx]
  exact List.getElem_mem hidx

theorem palGrid_genSet {g : GenGrid} (hg : palGrid g) {v : Option String}
    (hv : ∀ s, v = some s → s ∈ CYBERPUNK_PALETTE) (r c : ℤ) :
    palGrid (genSet g r c v) := by
  intro rw hrw cell hcell s hs
  obtain ⟨i, a, ha, hb⟩ := exists_of_mem_mapIdx hrw
  have hamem : a ∈ g := List.mem_iff_getElem?.mpr ⟨i, ha⟩
  subst hb
  split at hcell
  · obtain ⟨j, b, hjb, hcb⟩ := exists_of_mem_mapIdx hcell
    have hbmem : b ∈ a := List.mem_iff_getElem?.mpr ⟨j, hjb⟩
    subst hcb
    split at hs
    · exact hv s hs
    · exact hg a hamem b hbmem s hs
  · exact hg a hamem cell hcell s hs

theorem palGrid_foldl_genSet {l : List (ℤ × ℤ)} {v : Option String}
    (hv : ∀ s, v = some s → s ∈ CYBERPUNK_PALETTE) :
    ∀ {g : GenGrid}, palGrid g →
      palGrid (l.foldl (fun g q => genSet g q.1 q.2 v) g) := by
  induction l with
  | nil => intro g h; exact h
  | cons q rest ih =>
    intro g h
    simp only [List.foldl_cons]
    exact ih (palGrid_genSet h hv q.1 q.2)

theorem terrPal_createTerritorySeeds (ρ : ℕ → K) (hρ : RandSrc ρ) (rows cols : ℤ) :
    ∀ (n k : ℕ), terrPal (createTerritorySeeds ρ k n rows cols).1 := by
  intro n
  induction n with
  | zero => intro k t ht; simp [createTerritorySeeds] at ht
  | succ m ih =>
    intro k t ht
    simp only [createTerritorySeeds] at ht
    rcases List.mem_cons.mp ht with ht | ht
    · rw [ht]
      exact randomCyberpunkColor_mem (hρ (k + 2)).1 (hρ (k + 2)).2
    · exact ih (k + 3) t ht

theorem palGrid_growTFF (sn : K → K) (ρ : ℕ → K) {color : String}
    (hcolor : color ∈ CYBERPUNK_PALETTE) (rows cols : ℤ) (seed organicness : K) :
    ∀ (fr : List (ℤ × ℤ)) (k : ℕ) {grid : GenGrid}, palGrid grid →
      palGrid (growTerritoryFromFrontier sn ρ color rows cols seed organicness
        k grid fr).1 := by
  intro fr
  induction fr with
  | nil => intro k grid h; exact h
  | cons fc rest ih =>
    intro k grid h
    simp only [growTerritoryFromFrontier]
    apply ih
    exact palGrid_foldl_genSet (fun s hs => (Option.some.inj hs) ▸ hcolor) h

theorem palGrid_growIteration (sn : K → K) (ρ : ℕ → K) (rows cols : ℤ)
    (seed organicness : K) :
    ∀ (ts : List Territory) (k : ℕ) {grid : GenGrid}, palGrid grid → terrPal ts →
      palGrid (growTerritoriesIteration sn ρ rows cols seed organicness k grid ts).1 ∧
      terrPal (growTerritoriesIteration sn ρ rows cols seed organicness k grid ts).2.1 := by
  intro ts
  induction ts with
  | nil =>
    intro k grid h _
    exact ⟨h, by intro t ht; simp [growTerritoriesIteration] at ht⟩
  | cons t rest ih =>
    intro k grid h hts
    have hcol : t.color ∈ CYBERPUNK_PALETTE := hts t (List.mem_cons_self t rest)
    simp only [growTerritoriesIteration]
    have hg1 := palGrid_growTFF sn ρ hcol rows cols seed organicness t.frontier k h
    obtain ⟨ih1, ih2⟩ := ih _ hg1 (fun t' ht' => hts t' (List.mem_cons_of_mem t ht'))
    refine ⟨ih1, ?_⟩
    intro t' ht'
    rcases List.mem_cons.mp ht' with ht' | ht'
    · rw [ht']
      exact hcol
    · exact ih2 t' ht'

theorem palGrid_growLoop (sn : K → K) (ρ : ℕ → K) (rows cols : ℤ)
    (seed organicness : K) :
    ∀ (fuel : ℕ) {grid : GenGrid} {ts : List Territory} (ac k : ℕ),
      palGrid grid → terrPal ts →
      palGrid (growLoop sn ρ rows cols seed organicness fuel grid ts ac k).1 := by
  intro fuel
  induction fuel with
  | zero => intro grid ts ac k h _; exact h
  | succ n ih =>
    intro grid ts ac k h hts
    simp only [growLoop]
    split
    · exact h
    · obtain ⟨h1, h2⟩ := palGrid_growIteration sn ρ rows cols seed organicness ts k h hts
      exact ih _ _ h1 h2

end PaletteLemmas

theorem rawGet_palette {grid : GenGrid} (hg : palGrid grid) {r c : ℤ} {cv : String}
    (h : (listGetI grid r).bind (fun rw => listGetI rw c) = some (some cv)) :
    cv ∈ CYBERPUNK_PALETTE := by
  cases hr : listGetI grid r with
  | none => rw [hr] at h; simp at h
  | some rw1 =>
    rw [hr] at h
    simp only [Option.some_bind] at h
    exact hg rw1 (listGetI_mem hr) (some cv) (listGetI_mem h) cv rfl

theorem fccnStep_palette {grid : GenGrid} (hg : palGrid grid) (row col rows cols : ℤ)
    (st : Option (String × ℤ))
    (hst : ∀ s d, st = some (s, d) → s ∈ CYBERPUNK_PALETTE) (off : ℤ × ℤ) :
    ∀ s d, fccnStep grid row col rows cols st off = some (s, d) →
      s ∈ CYBERPUNK_PALETTE := by
  intro s d h
  unfold fccnStep at h
  dsimp only at h
  split at h
  · split at h
    · rename_i x cv heq
      split at h
      · have hcv : cv = s := congrArg Prod.fst (Option.some.inj h)
        exact hcv ▸ rawGet_palette hg heq
      · split at h
        · have hcv : cv = s := congrArg Prod.fst (Option.some.inj h)
          exact hcv ▸ rawGet_palette hg heq
        · exact hst s d h
    · exact hst s d h
  · exact hst s d h

theorem fccnFold_palette {grid : GenGrid} (hg : palGrid grid) (row col rows cols : ℤ) :
    ∀ (l : List (ℤ × ℤ)) (st : Option (String × ℤ)),
      (∀ s d, st = some (s, d) → s ∈ CYBERPUNK_PALETTE) →
      ∀ s d, l.foldl (fccnStep grid row col rows cols) st = some (s, d) →
        s ∈ CYBERPUNK_PALETTE := by
  intro l
  induction l with
  | nil => intro st hst s d h; exact hst s d h
  | cons off rest ih =>
    intro st hst s d h
    exact ih _ (fun s' d' hstep =>
      fccnStep_palette hg row col rows cols st hst off s' d' hstep) s d h

theorem findClosestColoredNeighbor_palette {grid : GenGrid} (hg : palGrid grid)
    (row col rows cols : ℤ) {s : String}
    (h : findClosestColoredNeighbor grid row col rows cols = some s) :
    s ∈ CYBERPUNK_PALETTE := by
  unfold findClosestColoredNeighbor at h
  cases hf : fccnOffsets.foldl (fccnStep grid row col rows cols) none with
  | none => rw [hf] at h; simp at h
  | some p =>
    rw [hf] at h
    simp only [Option.map_some'] at h
    have := fccnFold_palette hg row col rows cols fccnOffsets none
      (by intro s' d' hcon; simp at hcon) p.1 p.2 (by rw [hf])
    rw [← Option.some.inj h]
    exact this

section PaletteLemmas2

variable {K : Type} [LinearOrderedField K] [FloorRing K]

theorem fillRowAux_palette {grid : GenGrid} (hg : palGrid grid) {ρ : ℕ → K}
    (hρ : RandSrc ρ) (rows cols r : ℤ) :
    ∀ (rowv : List (Option String)) (k : ℕ) (c : ℤ),
      (∀ cell ∈ rowv, ∀ s, cell = some s → s ∈ CYBERPUNK_PALETTE) →
      ∀ x ∈ (fillRowAux ρ grid rows cols r k c rowv).1, x ∈ CYBERPUNK_PALETTE := by
  intro rowv
  induction rowv with
  | nil => intro k c _ x hx; simp [fillRowAux] at hx
  | cons cell rest ih =>
    intro k c hcells x hx
    have hrest : ∀ cell ∈ rest, ∀ s, cell = some s → s ∈ CYBERPUNK_PALETTE :=
      fun cl hcl => hcells cl (List.mem_cons_of_mem cell hcl)
    cases cell with
    | some s =>
      simp only [fillRowAux] at hx
      rcases List.mem_cons.mp hx with hx | hx
      · exact hx ▸ hcells (some s) (List.mem_cons_self _ _) s rfl
      · exact ih k (c + 1) hrest x hx
    | none =>
      simp only [fillRowAux] at hx
      cases hf : findClosestColoredNeighbor grid r c rows cols with
      | some s =>
        rw [hf] at hx
        dsimp only at hx
        by_cases hs : s = ""
        · rw [if_pos hs] at hx
          dsimp only at hx
          rcases List.mem_cons.mp hx with hx | hx
          · exact hx ▸ randomCyberpunkColor_mem (hρ k).1 (hρ k).2
          · exact ih (k + 1) (c + 1) hrest x hx
        · rw [if_neg hs] at hx
          dsimp only at hx
          rcases List.mem_cons.mp hx with hx | hx
          · exact hx ▸ findClosestColoredNeighbor_palette hg r c rows cols hf
          · exact ih k (c + 1) hrest x hx
      | none =>
        rw [hf] at hx
        dsimp only at hx
        rcases List.mem_cons.mp hx with hx | hx
        · exact hx ▸ randomCyberpunkColor_mem (hρ k).1 (hρ k).2
        · exact ih (k + 1) (c + 1) hrest x hx

theorem fillRemainingCellsAux_palette {grid : GenGrid} (hg : palGrid grid) {ρ : ℕ → K}
    (hρ : RandSrc ρ) (rows cols : ℤ) :
    ∀ (rest : List (List (Option String))) (k : ℕ) (r : ℤ),
      (∀ rw ∈ rest, ∀ cell ∈ rw, ∀ s, cell = some s → s ∈ CYBERPUNK_PALETTE) →
      ∀ rw ∈ (fillRemainingCellsAux ρ grid rows cols k r rest).1,
        ∀ x ∈ rw, x ∈ CYBERPUNK_PALETTE := by
  intro rest
  induction rest with
  | nil => intro k r _ rw hrw; simp [fillRemainingCellsAux] at hrw
  | cons rowv rest' ih =>
    intro k r hcells rw hrw x hx
    simp only [fillRemainingCellsAux] at hrw
    rcases List.mem_cons.mp hrw with hrw | hrw
    · subst hrw
      exact fillRowAux_palette hg hρ rows cols r rowv k 0
        (hcells rowv (List.mem_cons_self _ _)) x hx
    · exact ih (fillRowAux ρ grid rows cols r k 0 rowv).2 (r + 1)
        (fun rw' hrw' => hcells rw' (List.mem_cons_of_mem rowv hrw')) rw hrw x hx

theorem fillAllRandomRow_palette {ρ : ℕ → K} (hρ : RandSrc ρ) :
    ∀ (rowv : List (Option String)) (k : ℕ),
      ∀ x ∈ (fillAllRandomRow ρ k rowv).1, x ∈ CYBERPUNK_PALETTE := by
  intro rowv
  induction rowv with
  | nil => intro k x hx; simp [fillAllRandomRow] at hx
  | cons cell rest ih =>
    intro k x hx
    simp only [fillAllRandomRow] at hx
    rcases List.mem_cons.mp hx with hx | hx
    · exact hx ▸ randomCyberpunkColor_mem (hρ k).1 (hρ k).2
    · exact ih (k + 1) x hx

theorem fillAllRandom_palette {ρ : ℕ → K} (hρ : RandSrc ρ) :
    ∀ (g : GenGrid) (k : ℕ),
      ∀ rw ∈ (fillAllRandom ρ k g).1, ∀ x ∈ rw, x ∈ CYBERPUNK_PALETTE := by
  intro g
  induction g with
  | nil => intro k rw hrw; simp [fillAllRandom] at hrw
  | cons rowv rest ih =>
    intro k rw hrw x hx
    simp only [fillAllRandom] at hrw
    rcases List.mem_cons.mp hrw with hrw | hrw
    · subst hrw
      exact fillAllRandomRow_palette hρ rowv k x hx
    · exact ih (fillAllRandomRow ρ k rowv).2 rw hrw x hx

theorem palGrid_foldl_seedPlacement {ts : List Territory} (hts : terrPal ts) :
    ∀ {g : GenGrid}, palGrid g →
      palGrid (ts.foldl
        (fun g t => genSet g (t.cells.headD (0, 0)).1 (t.cells.headD (0, 0)).2
          (some t.color)) g) := by
  induction ts with
  | nil => intro g h; exact h
  | cons t rest ih =>
    intro g h
    simp only [List.foldl_cons]
    have hcol : t.color ∈ CYBERPUNK_PALETTE := hts t (List.mem_cons_self t rest)
    exact ih (fun t' ht' => hts t' (List.mem_cons_of_mem t ht'))
      (palGrid_genSet h (fun s hs => (Option.some.inj hs) ▸ hcol) _ _)

theorem palGrid_replicate (shR shC : ℕ) :
    palGrid (List.replicate shR (List.replicate shC (none : Option String))) := by
  intro rw hrw cell hcell s hs
  have h1 := List.eq_of_mem_replicate hrw
  rw [h1] at hcell
  have h2 := List.eq_of_mem_replicate hcell
  rw [h2] at hs
  simp at hs

theorem genRowRandom_palette {ρ : ℕ → K} (hρ : RandSrc ρ) :
    ∀ (n k : ℕ), ∀ x ∈ (genRowRandom ρ k n).1, x ∈ CYBERPUNK_PALETTE := by
  intro n
  induction n with
  | zero => intro k x hx; simp [genRowRandom] at hx
  | succ m ih =>
    intro k x hx
    simp only [genRowRandom] at hx
    rcases List.mem_cons.mp hx with hx | hx
    · exact hx ▸ randomCyberpunkColor_mem (hρ k).1 (hρ k).2
    · exact ih (k + 1) x hx

theorem genGridRandom_palette {ρ : ℕ → K} (hρ : RandSrc ρ) (cols : ℕ) :
    ∀ (n k : ℕ), ∀ rw ∈ (genGridRandom ρ cols k n).1, ∀ x ∈ rw,
      x ∈ CYBERPUNK_PALETTE := by
  intro n
  induction n with
  | zero => intro k rw hrw; simp [genGridRandom] at hrw
  | succ m ih =>
    intro k rw hrw x hx
    simp only [genGridRandom] at hrw
    rcases List.mem_cons.mp hrw with hrw | hrw
    · subst hrw
      exact genRowRandom_palette hρ cols k x hx
    · exact ih (genRowRandom ρ k cols).2 rw hrw x hx

/-- Every cell of `generateGridWithZones` is a palette color. -/
theorem generateGridWithZones_palette (sn sq : K → K) {ρ : ℕ → K} (hρ : RandSrc ρ)
    (rows cols : ℤ) (organicness : K) :
    ∀ rw ∈ generateGridWithZones sn sq ρ rows cols organicness, ∀ x ∈ rw,
      x ∈ CYBERPUNK_PALETTE := by
  unfold generateGridWithZones
  split
  · intro rw hrw; simp at hrw
  · dsimp only
    split
    · intro rw hrw x hx
      exact fillAllRandom_palette hρ _ 1 rw hrw x hx
    · intro rw hrw x hx
      have hterr := terrPal_createTerritorySeeds ρ hρ rows cols
        (calculateTerritoryCount sq rows cols organicness).toNat 1
      have hseeded := palGrid_foldl_seedPlacement hterr
        (palGrid_replicate rows.toNat cols.toNat)
      have hloop := palGrid_growLoop sn ρ rows cols (ρ 0 * 10000) organicness
        (rows * cols).toNat
        (createTerritorySeeds ρ 1 (calculateTerritoryCount sq rows cols organicness).toNat
          rows cols).1.length
        (createTerritorySeeds ρ 1 (calculateTerritoryCount sq rows cols organicness).toNat
          rows cols).2 hseeded hterr
      unfold fillRemainingCells at hrw
      exact fillRemainingCellsAux_palette hloop hρ rows cols _ _ 0
        (fun rw' hrw' => hloop rw' hrw') rw hrw x hx

/-- Every cell of `generateGrid` is a palette color. -/
theorem generateGrid_palette {ρ : ℕ → K} (hρ : RandSrc ρ) (rows cols : ℤ) :
    ∀ rw ∈ generateGrid ρ rows cols, ∀ x ∈ rw, x ∈ CYBERPUNK_PALETTE := by
  unfold generateGrid
  split
  · intro rw hrw; simp at hrw
  · exact genGridRandom_palette hρ cols.toNat rows.toNat 0

end PaletteLemmas2

/-- C5: `generateGridWithZones` returns the empty grid for non-positive
dimensions (no error), and otherwise — for any organicness in `[0,100]` and
any behaviour of the random source — a grid of exactly `rows` rows of exactly
`cols` string cells (so no missing or null cell). -/
theorem claim_C5_generator_shape (rows cols : ℤ) (organicness : ℝ) (ρ : ℕ → ℝ) :
    ((rows ≤ 0 ∨ cols ≤ 0) →
      generateGridWithZones Real.sin Real.sqrt ρ rows cols organicness = []) ∧
    (0 < rows → 0 < cols → 0 ≤ organicness → organicness ≤ 100 → RandSrc ρ →
      (generateGridWithZones Real.sin Real.sqrt ρ rows cols organicness).length
        = rows.toNat ∧
      ∀ rw ∈ generateGridWithZones Real.sin Real.sqrt ρ rows cols organicness,
        rw.length = cols.toNat) := by
  constructor
  · intro h
    unfold generateGridWithZones
    rw [if_pos h]
  · intro h1 h2 _ _ _
    exact generateGridWithZones_shape Real.sin Real.sqrt ρ rows cols organicness h1 h2

theorem claim_C5_witness :
    ((0 : ℤ) ≤ 0 ∨ (5 : ℤ) ≤ 0) ∧
    generateGridWithZones Real.sin Real.sqrt (fun _ => (1 / 2 : ℝ)) 0 5 100 = [] ∧
    (0 : ℤ) < 2 ∧ (0 : ℤ) < 3 ∧ (0 : ℝ) ≤ 50 ∧ (50 : ℝ) ≤ 100 ∧
    RandSrc (fun _ => (1 / 2 : ℝ)) ∧
    (generateGridWithZones Real.sin Real.sqrt (fun _ => (1 / 2 : ℝ)) 2 3 50).length
      = (2 : ℤ).toNat ∧
    (∀ rw ∈ generateGridWithZones Real.sin Real.sqrt (fun _ => (1 / 2 : ℝ)) 2 3 50,
      rw.length = (3 : ℤ).toNat) :=
  ⟨Or.inl le_rfl,
   (claim_C5_generator_shape 0 5 100 (fun _ => (1 / 2 : ℝ))).1 (Or.inl le_rfl),
   by norm_num, by norm_num, by norm_num, by norm_num,
   fun n => ⟨by norm_num, by norm_num⟩,
   ((claim_C5_generator_shape 2 3 50 (fun _ => (1 / 2 : ℝ))).2 (by norm_num) (by norm_num)
     (by norm_num) (by norm_num) (fun n => ⟨by norm_num, by norm_num⟩)).1,
   ((claim_C5_generator_shape 2 3 50 (fun _ => (1 / 2 : ℝ))).2 (by norm_num) (by norm_num)
     (by norm_num) (by norm_num) (fun n => ⟨by norm_num, by norm_num⟩)).2⟩

/-- C10: every cell of every grid returned by `generateGrid` and by
`generateGridWithZones` (positive dimensions, organicness in `[0,100]`, any
behaviour of the random source) is one of the nine fixed palette strings. -/
theorem claim_C10_palette_membership (rows cols : ℤ) (organicness : ℝ) (ρ : ℕ → ℝ)
    (h1 : 0 < rows) (h2 : 0 < cols) (ho1 : 0 ≤ organicness) (ho2 : organicness ≤ 100)
    (hρ : RandSrc ρ) :
    (∀ rw ∈ generateGrid ρ rows cols, ∀ x ∈ rw, x ∈ CYBERPUNK_PALETTE) ∧
    (∀ rw ∈ generateGridWithZones Real.sin Real.sqrt ρ rows cols organicness,
      ∀ x ∈ rw, x ∈ CYBERPUNK_PALETTE) :=
  ⟨generateGrid_palette hρ rows cols,
   generateGridWithZones_palette Real.sin Real.sqrt hρ rows cols organicness⟩

theorem claim_C10_witness :
    (0 : ℤ) < 2 ∧ (0 : ℤ) < 2 ∧ (0 : ℝ) ≤ 50 ∧ (50 : ℝ) ≤ 100 ∧
    RandSrc (fun _ => (1 / 2 : ℝ)) ∧
    ((∀ rw ∈ generateGrid (fun _ => (1 / 2 : ℝ)) 2 2, ∀ x ∈ rw,
        x ∈ CYBERPUNK_PALETTE) ∧
      (∀ rw ∈ generateGridWithZones Real.sin Real.sqrt (fun _ => (1 / 2 : ℝ)) 2 2 50,
        ∀ x ∈ rw, x ∈ CYBERPUNK_PALETTE)) :=
  ⟨by norm_num, by norm_num, by norm_num, by norm_num,
   fun n => ⟨by norm_num, by norm_num⟩,
   claim_C10_palette_membership 2 2 50 (fun _ => (1 / 2 : ℝ)) (by norm_num) (by norm_num)
     (by norm_num) (by norm_num) (fun n => ⟨by norm_num, by norm_num⟩)⟩

/-- C7: `calculateTerritoryCount` computes
`⌊m + (rows*cols - m) * (100 - organicness)/100⌋` with
`m = max(2, ⌊√(rows*cols)/2⌋)`, equals `m` at organicness 100 and the full
cell count at organicness 0. -/
theorem claim_C7_territory_count (rows cols : ℤ) (organicness : ℝ)
    (h1 : 0 < rows) (h2 : 0 < cols) (ho1 : 0 ≤ organicness) (ho2 : organicness ≤ 100) :
    calculateTerritoryCount Real.sqrt rows cols organicness
      = ⌊((max 2 ⌊Real.sqrt (((rows * cols : ℤ) : ℝ)) / 2⌋ : ℤ) : ℝ)
          + ((((rows * cols : ℤ) : ℝ))
              - ((max 2 ⌊Real.sqrt (((rows * cols : ℤ) : ℝ)) / 2⌋ : ℤ) : ℝ))
            * ((100 - organicness) / 100)⌋ ∧
    (organicness = 100 → calculateTerritoryCount Real.sqrt rows cols organicness
      = max 2 ⌊Real.sqrt (((rows * cols : ℤ) : ℝ)) / 2⌋) ∧
    (organicness = 0 →
      calculateTerritoryCount Real.sqrt rows cols organicness = rows * cols) := by
  have hcast : ((max 2 ⌊Real.sqrt (((rows * cols : ℤ) : ℝ)) / 2⌋ : ℤ) : ℝ)
      = max (2 : ℝ) ((⌊Real.sqrt (((rows * cols : ℤ) : ℝ)) / 2⌋ : ℤ) : ℝ) := by
    push_cast
    rfl
  refine ⟨?_, ?_, ?_⟩
  · unfold calculateTerritoryCount
    dsimp only
    rw [hcast]
  · intro h
    subst h
    unfold calculateTerritoryCount
    dsimp only
    norm_num
    have hc2 : ((2 : ℝ) ⊔ ((⌊Real.sqrt ((rows : ℝ) * (cols : ℝ)) / 2⌋ : ℤ) : ℝ))
        = (((2 ⊔ ⌊Real.sqrt ((rows : ℝ) * (cols : ℝ)) / 2⌋ : ℤ)) : ℝ) := by
      push_cast
      rfl
    rw [hc2, Int.floor_intCast]
  · intro h
    subst h
    unfold calculateTerritoryCount
    dsimp only
    norm_num
    rw [← Int.cast_mul, Int.floor_intCast]

theorem claim_C7_witness :
    (0 : ℤ) < 4 ∧ (0 : ℤ) < 5 ∧ (0 : ℝ) ≤ 30 ∧ (30 : ℝ) ≤ 100 ∧
    (calculateTerritoryCount Real.sqrt 4 5 (30 : ℝ)
        = ⌊((max 2 ⌊Real.sqrt (((4 * 5 : ℤ) : ℝ)) / 2⌋ : ℤ) : ℝ)
            + ((((4 * 5 : ℤ) : ℝ))
                - ((max 2 ⌊Real.sqrt (((4 * 5 : ℤ) : ℝ)) / 2⌋ : ℤ) : ℝ))
              * ((100 - (30 : ℝ)) / 100)⌋ ∧
      ((30 : ℝ) = 100 → calculateTerritoryCount Real.sqrt 4 5 (30 : ℝ)
        = max 2 ⌊Real.sqrt (((4 * 5 : ℤ) : ℝ)) / 2⌋) ∧
      ((30 : ℝ) = 0 → calculateTerritoryCount Real.sqrt 4 5 (30 : ℝ) = 4 * 5)) :=
  ⟨by norm_num, by norm_num, by norm_num, by norm_num,
   claim_C7_territory_count 4 5 30 (by norm_num) (by norm_num) (by norm_num) (by norm_num)⟩

/-! ## Growth probability (claim C8) -/

theorem abs_jsMod_one_lt (x : ℝ) : |jsMod x 1| < 1 := by
  unfold jsMod jsTrunc
  rw [div_one]
  by_cases hx : 0 ≤ x
  · rw [if_pos hx]
    have h1 : x - 1 * ((⌊x⌋ : ℤ) : ℝ) = Int.fract x := by
      rw [Int.fract]
      ring
    rw [h1, abs_of_nonneg (Int.fract_nonneg x)]
    exact Int.fract_lt_one x
  · rw [if_neg hx]
    have h1 : x - 1 * (((-⌊-x⌋ : ℤ)) : ℝ) = -Int.fract (-x) := by
      rw [Int.fract]
      push_cast
      ring
    rw [h1, abs_neg, abs_of_nonneg (Int.fract_nonneg _)]
    exact Int.fract_lt_one _

theorem abs_perlinNoise_lt_one (sn : ℝ → ℝ) (x y scale : ℝ) :
    |perlinNoise sn x y scale| < 1 := by
  unfold perlinNoise
  exact abs_jsMod_one_lt _

/-- C8 (amended): the growth probability equals
`0.3 + 0.4*|perlinNoise(row+seed, col+seed, 2)| + 0.4*organicness/100` and
lies in `[0.3, 1.1)`; it is not clamped to `[0,1]`. -/
theorem claim_C8_growth_probability_range (row col seed organicness : ℝ)
    (ho1 : 0 ≤ organicness) (ho2 : organicness ≤ 100) :
    calculateGrowthProbability Real.sin row col seed organicness
      = 0.3 + |perlinNoise Real.sin (row + seed) (col + seed) 2| * 0.4
        + organicness / 100 * 0.4 ∧
    0.3 ≤ calculateGrowthProbability Real.sin row col seed organicness ∧
    calculateGrowthProbability Real.sin row col seed organicness < 1.1 := by
  have hn0 : 0 ≤ |perlinNoise Real.sin (row + seed) (col + seed) 2| := abs_nonneg _
  have hn1 : |perlinNoise Real.sin (row + seed) (col + seed) 2| < 1 :=
    abs_perlinNoise_lt_one Real.sin (row + seed) (col + seed) 2
  unfold calculateGrowthProbability
  dsimp only
  refine ⟨by ring, by nlinarith, by nlinarith⟩

theorem claim_C8_range_witness :
    (0 : ℝ) ≤ 0 ∧ (0 : ℝ) ≤ 100 ∧
    (calculateGrowthProbability Real.sin 1 2 3 (0 : ℝ)
        = 0.3 + |perlinNoise Real.sin ((1 : ℝ) + 3) ((2 : ℝ) + 3) 2| * 0.4
          + (0 : ℝ) / 100 * 0.4 ∧
      0.3 ≤ calculateGrowthProbability Real.sin 1 2 3 (0 : ℝ) ∧
      calculateGrowthProbability Real.sin 1 2 3 (0 : ℝ) < 1.1) :=
  ⟨le_rfl, by norm_num,
   claim_C8_growth_probability_range 1 2 3 0 le_rfl (by norm_num)⟩

/-- Certified bound: `sin 91.2228 ≤ -0.11` (the first factor of
`simplex 1 1`), via 20-digit-free reduction `91.2228 = r + 29π` with
`r ∈ (0.116, 0.117)` and the cubic Taylor bound on `sin r`. -/
theorem sin_912228_le : Real.sin 91.2228 ≤ -0.11 := by
  have hpi_lo := Real.pi_gt_d6
  have hpi_hi := Real.pi_lt_d6
  set r : ℝ := 91.2228 - 29 * Real.pi with hr
  clear_value r
  have hrlo : (0.116 : ℝ) < r := by rw [hr]; nlinarith
  have hrhi : r < 0.117 := by rw [hr]; nlinarith
  have hperiodic : Real.sin 91.2228 = -Real.sin r := by
    have h1 : (91.2228 : ℝ) = (r + Real.pi) + (14 : ℤ) * (2 * Real.pi) := by
      rw [hr]; push_cast; ring
    rw [h1, Real.sin_add_int_mul_two_pi, Real.sin_add_pi]
  rw [hperiodic]
  have habs : |r| ≤ 1 := by rw [abs_le]; constructor <;> nlinarith
  have hbound := Real.sin_bound habs
  rw [abs_le] at hbound
  have hr3 : r ^ 3 < 0.117 ^ 3 := by
    apply pow_lt_pow_left₀ hrhi (by linarith)
    norm_num
  have hr4 : r ^ 4 < 0.117 ^ 4 := by
    apply pow_lt_pow_left₀ hrhi (by linarith)
    norm_num
  have habs4 : |r| ^ 4 = r ^ 4 := by rw [abs_of_pos (by linarith)]
  have hsin : Real.sin r ≥ r - r ^ 3 / 6 - |r| ^ 4 * (5 / 96) := by linarith [hbound.1]
  rw [habs4] at hsin
  nlinarith

/-- Certified bound: `sin 53.58 ≤ -0.17` (the second factor of
`simplex 1 1`), via `53.58 = r + 17π` with `r ∈ (0.1729, 0.173)`. -/
theorem sin_5358_le : Real.sin 53.58 ≤ -0.17 := by
  have hpi_lo := Real.pi_gt_d6
  have hpi_hi := Real.pi_lt_d6
  set r : ℝ := 53.58 - 17 * Real.pi with hr
  clear_value r
  have hrlo : (0.1729 : ℝ) < r := by rw [hr]; nlinarith
  have hrhi : r < 0.173 := by rw [hr]; nlinarith
  have hperiodic : Real.sin 53.58 = -Real.sin r := by
    have h1 : (53.58 : ℝ) = (r + Real.pi) + (8 : ℤ) * (2 * Real.pi) := by
      rw [hr]; push_cast; ring
    rw [h1, Real.sin_add_int_mul_two_pi, Real.sin_add_pi]
  rw [hperiodic]
  have habs : |r| ≤ 1 := by rw [abs_le]; constructor <;> nlinarith
  have hbound := Real.sin_bound habs
  rw [abs_le] at hbound
  have hr3 : r ^ 3 < 0.173 ^ 3 := by
    apply pow_lt_pow_left₀ hrhi (by linarith)
    norm_num
  have hr4 : r ^ 4 < 0.173 ^ 4 := by
    apply pow_lt_pow_left₀ hrhi (by linarith)
    norm_num
  have habs4 : |r| ^ 4 = r ^ 4 := by rw [abs_of_pos (by linarith)]
  have hsin : Real.sin r ≥ r - r ^ 3 / 6 - |r| ^ 4 * (5 / 96) := by linarith [hbound.1]
  rw [habs4] at hsin
  nlinarith

/-- The corner hash `simplex 1 1` is large and positive: it is
`sin(91.2228) * sin(53.58) * 43758.5453` with both sines certified negative. -/
theorem simplex_one_one_ge : (818 : ℝ) ≤ simplex Real.sin 1 1 := by
  unfold simplex
  have harg1 : (1 : ℝ) * 12.9898 + 1 * 78.233 = 91.2228 := by norm_num
  have harg2 : (1 : ℝ) * 39.346 + 1 * 14.234 = 53.58 := by norm_num
  rw [harg1, harg2]
  have h1 := sin_912228_le
  have h2 := sin_5358_le
  have h1' := Real.neg_one_le_sin 91.2228
  have h2' := Real.neg_one_le_sin 53.58
  nlinarith

/-- The off-corner hashes are bounded by the amplitude. -/
theorem abs_simplex_le (a b : ℝ) : |simplex Real.sin a b| ≤ 43758.5453 := by
  unfold simplex
  rw [abs_mul, abs_mul]
  have h1 : |Real.sin (a * 12.9898 + b * 78.233)| ≤ 1 := Real.abs_sin_le_one _
  have h2 : |Real.sin (a * 39.346 + b * 14.234)| ≤ 1 := Real.abs_sin_le_one _
  have h3 : |(43758.5453 : ℝ)| = 43758.5453 := by rw [abs_of_pos]; norm_num
  rw [h3]
  nlinarith [abs_nonneg (Real.sin (a * 12.9898 + b * 78.233)),
    abs_nonneg (Real.sin (a * 39.346 + b * 14.234))]

/-- On the diagonal `x = y = s` with `s ∈ [0,2)`, the lattice cell is
`(0,0)`, the `% 2` remainders are trivial, and the noise reduces to a cubic
smoothstep interpolation of the four corner hashes (the `(0,0)` corner hash
is exactly `0`). -/
theorem perlinNoise_diag (s : ℝ) (h0 : 0 ≤ s) (h2 : s < 2) :
    perlinNoise Real.sin s s 2 =
      jsMod (s / 2 * (s / 2) * (3 - 2 * (s / 2))
          * (1 - s / 2 * (s / 2) * (3 - 2 * (s / 2)))
          * (simplex Real.sin 1 0 + simplex Real.sin 0 1)
        + s / 2 * (s / 2) * (3 - 2 * (s / 2)) * (s / 2 * (s / 2) * (3 - 2 * (s / 2)))
          * simplex Real.sin 1 1) 1 := by
  have hfloor : ⌊s / 2⌋ = 0 := by
    rw [Int.floor_eq_zero_iff]
    exact ⟨by linarith, by linarith⟩
  have hmod : jsMod s 2 = s := by
    unfold jsMod jsTrunc
    rw [if_pos (by linarith : (0 : ℝ) ≤ s / 2), hfloor]
    norm_num
  have hs00 : simplex Real.sin 0 0 = 0 := by
    unfold simplex
    norm_num
  unfold perlinNoise
  dsimp only
  rw [hfloor, hmod]
  push_cast
  norm_num [hs00]
  congr 1
  ring

/-- C8 counterexample: the growth probability is not clamped — there are
inputs (explicitly: row = col = 0, organicness = 100, and a seed in
`[0, 1.999]` obtained by the intermediate value theorem at which the
interpolated hash equals 1.9, so the noise is 0.9) where it exceeds 1. -/
theorem claim_C8_counterexample :
    ¬ (∀ row col seed organicness : ℝ, 0 ≤ organicness → organicness ≤ 100 →
        0 ≤ calculateGrowthProbability Real.sin row col seed organicness ∧
        calculateGrowthProbability Real.sin row col seed organicness ≤ 1) := by
  intro hcon
  have hAabs := abs_simplex_le 1 0
  have hBabs := abs_simplex_le 0 1
  have hCge := simplex_one_one_ge
  set f : ℝ → ℝ := fun s =>
    s / 2 * (s / 2) * (3 - 2 * (s / 2)) * (1 - s / 2 * (s / 2) * (3 - 2 * (s / 2)))
      * (simplex Real.sin 1 0 + simplex Real.sin 0 1)
    + s / 2 * (s / 2) * (3 - 2 * (s / 2)) * (s / 2 * (s / 2) * (3 - 2 * (s / 2)))
      * simplex Real.sin 1 1 with hf
  have hcont : ContinuousOn f (Set.Icc (0 : ℝ) 1.999) := by
    apply Continuous.continuousOn
    rw [hf]
    fun_prop
  have hf0 : f 0 = 0 := by rw [hf]; norm_num
  have hf199 : (1.9 : ℝ) ≤ f 1.999 := by
    rw [hf]
    rw [abs_le] at hAabs hBabs
    nlinarith [hAabs.1, hAabs.2, hBabs.1, hBabs.2, hCge]
  have h19mem : (1.9 : ℝ) ∈ Set.Icc (f 0) (f 1.999) := by
    rw [hf0]
    exact ⟨by norm_num, hf199⟩
  obtain ⟨s₀, hs₀mem, hfs₀⟩ :=
    intermediate_value_Icc (by norm_num : (0 : ℝ) ≤ 1.999) hcont h19mem
  have hs0le : 0 ≤ s₀ := hs₀mem.1
  have hs2 : s₀ < 2 := lt_of_le_of_lt hs₀mem.2 (by norm_num)
  have hnoise : perlinNoise Real.sin s₀ s₀ 2 = jsMod 1.9 1 := by
    rw [perlinNoise_diag s₀ hs0le hs2]
    exact congrArg (fun z => jsMod z 1) hfs₀
  have hjm : jsMod (1.9 : ℝ) 1 = 0.9 := by
    unfold jsMod jsTrunc
    rw [div_one, if_pos (by norm_num : (0 : ℝ) ≤ 1.9)]
    have hfl : ⌊(1.9 : ℝ)⌋ = 1 := by
      apply Int.floor_eq_iff.mpr
      constructor <;> norm_num
    rw [hfl]
    norm_num
  have hp := (hcon 0 0 s₀ 100 (by norm_num) le_rfl).2
  have hval : calculateGrowthProbability Real.sin 0 0 s₀ 100 = 1.06 := by
    unfold calculateGrowthProbability
    dsimp only
    simp only [zero_add, hnoise, hjm]
    rw [abs_of_pos (by norm_num : (0 : ℝ) < 0.9)]
    norm_num
  rw [hval] at hp
  norm_num at hp
